import Mathlib

set_option linter.unusedVariables false

/-!
Verification of the pyRevit transform script
(src/test.extension/test_tab.tab/test_panel.panel/test_button.pushbutton/script.py).

The development shallowly embeds the geometric core of the script:
exact 3D points with rational coordinates, rotations about the vertical
axis, the composed rigid transform built in transform_model_and_views_v3,
the element/document model mutated by transform_elements_robust, the wall
join bookkeeping of store_wall_joins / clean_wall_constraints /
restore_wall_joins, the marker updates of update_elevation_markers_v3 /
update_section_views_v3, and the crop-frame update shared by
update_section_views_v3 and update_plan_views_v3.

External collaborator behaviour (the Revit API) is parametrised where the
script observes it: whether a MoveElement / RotateElement call is accepted
is a per-element flag, and whether a JoinGeometry call succeeds is an
explicit oracle argument.
-/


/-- Exact 3D point / vector with rational coordinates (models Revit DB.XYZ;
the script's geometry is real-valued, embedded here exactly over ℚ). -/
structure XYZ where
  x : ℚ
  y : ℚ
  z : ℚ
deriving DecidableEq, Repr

instance : Add XYZ := ⟨fun a b => ⟨a.x + b.x, a.y + b.y, a.z + b.z⟩⟩

instance : Sub XYZ := ⟨fun a b => ⟨a.x - b.x, a.y - b.y, a.z - b.z⟩⟩

/-- The zero vector, DB.XYZ(0,0,0). -/
def XYZ.zero : XYZ := ⟨0, 0, 0⟩

@[simp] theorem XYZ.add_def (a b : XYZ) : a + b = ⟨a.x + b.x, a.y + b.y, a.z + b.z⟩ := rfl

@[simp] theorem XYZ.sub_def (a b : XYZ) : a - b = ⟨a.x - b.x, a.y - b.y, a.z - b.z⟩ := rfl

/-- Dot product of two vectors. -/
def XYZ.dot (a b : XYZ) : ℚ := a.x * b.x + a.y * b.y + a.z * b.z

/-- Squared length; the script's GetLength() comparisons are modelled on
squares to stay inside ℚ. -/
def XYZ.lenSq (v : XYZ) : ℚ := v.x ^ 2 + v.y ^ 2 + v.z ^ 2

/-- Squared distance between two points (DistanceTo, squared). -/
def XYZ.distSq (a b : XYZ) : ℚ := (a - b).lenSq

/-- Linear part of a rotation about the vertical (Z) axis: the pair
(cos θ, sin θ) of the rotation angle. Rotations are the only linear parts
the script ever builds (DB.Transform.CreateRotationAtPoint with axis
DB.XYZ.BasisZ, and DB.ElementTransformUtils.RotateElement(s) with a
vertical axis line). -/
structure Rot2 where
  c : ℚ
  s : ℚ
deriving DecidableEq, Repr

/-- The identity linear part (translation-only transform). -/
def Rot2.idRot : Rot2 := ⟨1, 0⟩

/-- Apply the Z-axis rotation to a vector. -/
def Rot2.apply (R : Rot2) (v : XYZ) : XYZ :=
  ⟨R.c * v.x - R.s * v.y, R.s * v.x + R.c * v.y, v.z⟩

/-- Compose two Z-axis rotations (angle addition). -/
def Rot2.mul (a b : Rot2) : Rot2 :=
  ⟨a.c * b.c - a.s * b.s, a.s * b.c + a.c * b.s⟩

/-- Rotation about the vertical axis through point q, applied to point p.
Models DB.ElementTransformUtils.RotateElement with axis
Line.CreateBound(q, q + (0,0,10)), as built throughout the script. -/
def rotZAbout (R : Rot2) (q p : XYZ) : XYZ := q + R.apply (p - q)

/-- A rigid transform as the script composes it: a Z-rotation linear part
plus an origin (translation) vector. Models the DB.Transform values built
in transform_model_and_views_v3 (script.py lines 1211-1220). -/
structure RTransform where
  lin : Rot2
  origin : XYZ
deriving DecidableEq, Repr

/-- Transform.OfPoint. -/
def RTransform.ofPoint (T : RTransform) (p : XYZ) : XYZ := T.lin.apply p + T.origin

/-- Transform.OfVector (linear part only). -/
def RTransform.ofVector (T : RTransform) (v : XYZ) : XYZ := T.lin.apply v

/-- Transform.IsTranslation: the linear part is the identity. -/
def RTransform.isTranslation (T : RTransform) : Bool := decide (T.lin = Rot2.idRot)

/-- DB.Transform.CreateRotationAtPoint(BasisZ, θ, c): rotation about the
vertical axis through c; its origin is c - R·c. -/
def Transform.createRotationAtPoint (R : Rot2) (center : XYZ) : RTransform :=
  ⟨R, center - R.apply center⟩

/-- DB.Transform.CreateTranslation(t). -/
def Transform.createTranslation (t : XYZ) : RTransform := ⟨Rot2.idRot, t⟩

/-- Transform.Multiply: T1.Multiply(T2) is the composition applying T2
first, then T1. -/
def RTransform.multiply (T1 T2 : RTransform) : RTransform :=
  ⟨T1.lin.mul T2.lin, T1.lin.apply T2.origin + T1.origin⟩

/-- The combined transform of transform_model_and_views_v3 (script.py lines
1213-1220): translation.Multiply(rotationAtPoint) when the rotation angle
is nonzero, otherwise a pure translation. R is the linear part of the
rotation by rotationDegrees. -/
def combined_transform (rotationDegrees : ℚ) (R : Rot2) (rotationOrigin t : XYZ) : RTransform :=
  if rotationDegrees ≠ 0 then
    (Transform.createTranslation t).multiply (Transform.createRotationAtPoint R rotationOrigin)
  else
    Transform.createTranslation t

/-- Final stored position of a FamilyInstance elevation marker in
update_elevation_markers_v3 (script.py lines 711-735): the location point
is set to transform.OfPoint(old), then RotateElement is applied about the
vertical axis through that new point, with the orientation-correction
rotation corr; the rotation maps the stored location point as rotZAbout. -/
def updateElevationFamilyMarkerPos (T : RTransform) (corr : Rot2) (p : XYZ) : XYZ :=
  let newPoint := T.ofPoint p
  rotZAbout corr newPoint newPoint

/-- Final stored position of a section marker family instance in
update_section_views_v3 (script.py lines 833-853): identical sequence to
the elevation FamilyInstance branch. -/
def updateSectionMarkerPos (T : RTransform) (corr : Rot2) (p : XYZ) : XYZ :=
  let newPoint := T.ofPoint p
  rotZAbout corr newPoint newPoint

/-- The fixed local orientation-correction angle in degrees, a literal in
update_elevation_markers_v3 (script.py line 700) and
update_section_views_v3 (line 824). -/
def orientation_adjustment_degrees : ℚ := 45

/-- Record of the local orientation correction a marker receives: the angle
in degrees and the pivot of the rotation axis. -/
structure CorrectionApplied where
  angleDeg : ℚ
  pivot : XYZ
deriving DecidableEq, Repr

/-- The correction applied to a single-position elevation marker at
original position p by update_elevation_markers_v3 (script.py lines
697-733): the angle is the fixed literal and the pivot is the marker's new
position; the building rotation angle rotationDegrees is received by the
function but does not enter the correction. -/
def elevationMarkerCorrection (T : RTransform) (rotationDegrees : ℚ) (p : XYZ) :
    CorrectionApplied :=
  ⟨orientation_adjustment_degrees, T.ofPoint p⟩

/-- The correction applied to a section marker at original position p by
update_section_views_v3 (script.py lines 821-852), same shape as the
elevation case. -/
def sectionMarkerCorrection (T : RTransform) (rotationDegrees : ℚ) (p : XYZ) :
    CorrectionApplied :=
  ⟨orientation_adjustment_degrees, T.ofPoint p⟩

/-- A full view coordinate frame (DB.Transform of a crop box): three basis
vectors and an origin. -/
structure Transform3 where
  basisX : XYZ
  basisY : XYZ
  basisZ : XYZ
  origin : XYZ
deriving DecidableEq, Repr

/-- The new crop-box transform built by update_section_views_v3 (script.py
lines 876-908) and identically by update_plan_views_v3 (lines 977-1005):
origin is transform.OfPoint(old origin); if the transform is not a pure
translation all three basis vectors are mapped by OfVector, otherwise kept. -/
def newCropTransform (T : RTransform) (old : Transform3) : Transform3 :=
  if T.isTranslation then
    { basisX := old.basisX, basisY := old.basisY, basisZ := old.basisZ,
      origin := T.ofPoint old.origin }
  else
    { basisX := T.ofVector old.basisX, basisY := T.ofVector old.basisY,
      basisZ := T.ofVector old.basisZ, origin := T.ofPoint old.origin }

/-- Mutual orthonormality of the three basis vectors of a frame. -/
def orthonormalBasis (f : Transform3) : Prop :=
  f.basisX.dot f.basisX = 1 ∧ f.basisY.dot f.basisY = 1 ∧ f.basisZ.dot f.basisZ = 1 ∧
  f.basisX.dot f.basisY = 0 ∧ f.basisX.dot f.basisZ = 0 ∧ f.basisY.dot f.basisZ = 0

/-- A document element as transform_elements_robust observes it: identity,
liveness (GetElement returns it), the classification facts the script
probes (Floor/RoofBase/Ceiling instance, Host presence, Wall instance),
its location (point and/or curve), and the two collaborator flags saying
whether the Revit API accepts MoveElement / RotateElement on it. -/
structure Elem where
  eid : Nat
  alive : Bool
  sketchBased : Bool
  hosted : Bool
  isWall : Bool
  locPoint : Option XYZ
  locCurve : Option (XYZ × XYZ)
  canTranslate : Bool
  canRotate : Bool
deriving DecidableEq, Repr

/-- Apply a point map to an element's location data (what a successful
MoveElement / RotateElement does to stored locations). -/
def Elem.mapPos (f : XYZ → XYZ) (e : Elem) : Elem :=
  { e with locPoint := e.locPoint.map f,
           locCurve := e.locCurve.map (fun pq => (f pq.1, f pq.2)) }

/-- The document: elements, the currently joined pairs, and the pairs for
which a clean-up JoinGeometry call would succeed (collaborator data). -/
structure Doc where
  elems : List Elem
  joined : List (Nat × Nat)
  joinOk : List (Nat × Nat)
deriving DecidableEq, Repr

/-- Find the first live element with the given id. -/
def findElem (i : Nat) : List Elem → Option Elem
  | [] => none
  | e :: es => if e.eid = i ∧ e.alive = true then some e else findElem i es

/-- document.GetElement: none models both a missing id and an invalidated
element. -/
def Doc.getElement (d : Doc) (i : Nat) : Option Elem := findElem i d.elems

/-- Update the location of the element with the given id. -/
def Doc.mapElemPos (d : Doc) (i : Nat) (f : XYZ → XYZ) : Doc :=
  { d with elems := d.elems.map (fun e => if e.eid = i then e.mapPos f else e) }

/-- Whether a stored pair mentions the unordered pair (i, j). -/
def pairMatches (i j : Nat) (p : Nat × Nat) : Bool :=
  decide ((p.1 = i ∧ p.2 = j) ∨ (p.1 = j ∧ p.2 = i))

/-- DB.JoinGeometryUtils.AreElementsJoined. -/
def Doc.areJoined (d : Doc) (i j : Nat) : Bool := d.joined.any (pairMatches i j)

/-- Whether a JoinGeometry call on this pair succeeds (collaborator data
used by clean_wall_constraints). -/
def Doc.joinOkPair (d : Doc) (i j : Nat) : Bool := d.joinOk.any (pairMatches i j)

/-- separate_hosted_elements (script.py lines 24-42): split ids into
(hosted, nonHosted); a missing element defaults to non-hosted. -/
def separate_hosted_elements (d : Doc) : List Nat → List Nat × List Nat
  | [] => ([], [])
  | i :: rest =>
    let hr := separate_hosted_elements d rest
    match d.getElement i with
    | some e => if e.hosted then (i :: hr.1, hr.2) else (hr.1, i :: hr.2)
    | none => (hr.1, i :: hr.2)

/-- get_valid_elements (script.py lines 45-60): ids that still resolve. -/
def get_valid_elements (d : Doc) (ids : List Nat) : List Nat :=
  ids.filter (fun i => (d.getElement i).isSome)

/-- The ids among ids that resolve to Wall elements. -/
def wallIds (d : Doc) (ids : List Nat) : List Nat :=
  ids.filter (fun i => match d.getElement i with
    | some e => e.isWall
    | none => false)

/-- All ordered pairs (w, w2) with w before w2 in the wall list that are
currently joined. -/
def joinedPairsAmong (d : Doc) : List Nat → List (Nat × Nat)
  | [] => []
  | w :: rest =>
    (rest.filter (fun w2 => d.areJoined w w2)).map (fun w2 => (w, w2)) ++
      joinedPairsAmong d rest

/-- store_wall_joins (script.py lines 63-88): record every currently
joined wall pair among the given ids. -/
def store_wall_joins (d : Doc) (ids : List Nat) : List (Nat × Nat) :=
  joinedPairsAmong d (wallIds d ids)

/-- The sketch-based / regular split of transform_elements_robust
(script.py lines 343-352): Floor, RoofBase and Ceiling instances are
sketch-based; missing ids are dropped by the `if element:` guard. -/
def partitionSketchRegular (d : Doc) : List Nat → List Nat × List Nat
  | [] => ([], [])
  | i :: rest =>
    let sr := partitionSketchRegular d rest
    match d.getElement i with
    | some e => if e.sketchBased then (i :: sr.1, sr.2) else (sr.1, i :: sr.2)
    | none => sr

/-- Net effect of DB.ElementTransformUtils.RotateElements with the batch
failure fallback to per-element RotateElement (script.py lines 415-424 and
430-439): every resolvable element whose rotation the API accepts is
rotated about the vertical axis through q; the rest are skipped. -/
def rotate_elements (R : Rot2) (q : XYZ) : Doc → List Nat → Doc
  | d, [] => d
  | d, i :: rest =>
    match d.getElement i with
    | some e =>
      rotate_elements R q (if e.canRotate then d.mapElemPos i (rotZAbout R q) else d) rest
    | none => rotate_elements R q d rest

/-- Net effect of DB.ElementTransformUtils.MoveElements with the batch
failure fallback to per-element MoveElement (script.py lines 546-561). -/
def move_elements (v : XYZ) : Doc → List Nat → Doc
  | d, [] => d
  | d, i :: rest =>
    match d.getElement i with
    | some e =>
      move_elements v (if e.canTranslate then d.mapElemPos i (fun p => p + v) else d) rest
    | none => move_elements v d rest

/-- Observable phases and per-element attempts of
transform_elements_robust, in execution order. -/
inductive Ev where
  | captureJoins
  | rotateNonHostedBatch
  | rotateHostedBatch
  | sketchTranslate (eid : Nat) (ok : Bool)
  | sketchRotate (eid : Nat) (pivot : XYZ) (ok : Bool)
  | bulkTranslate
  | cleanConstraints
  | restoreJoins
deriving DecidableEq, Repr

/-- transform.Origin.GetLength() > 0.001 (script.py line 488), on squares. -/
def originLengthAboveGate (o : XYZ) : Bool := decide (o.lenSq > 1 / 1000000)

/-- One sketch-based element of the step 1.5 loop (script.py lines
471-534): translation by transform.Origin is attempted first (only when
the origin is long enough); only if it succeeded and the rotation angle is
nonzero, rotation is attempted about the element's own current location
point if it has one, otherwise about the global rotation origin; a
rotation failure leaves the element translated and still counted. -/
def processSketchElem (d : Doc) (T : RTransform) (R : Rot2) (rotationDegrees : ℚ)
    (rotationOrigin : XYZ) (i : Nat) : Doc × Nat × List Ev :=
  match d.getElement i with
  | none => (d, 0, [])
  | some e =>
    if originLengthAboveGate T.origin then
      if e.canTranslate then
        let d1 := d.mapElemPos i (fun p => p + T.origin)
        if rotationDegrees ≠ 0 then
          match d1.getElement i with
          | some e1 =>
            let rotCenter := e1.locPoint.getD rotationOrigin
            if e1.canRotate then
              (d1.mapElemPos i (rotZAbout R rotCenter), 1,
                [Ev.sketchTranslate i true, Ev.sketchRotate i rotCenter true])
            else
              (d1, 1, [Ev.sketchTranslate i true, Ev.sketchRotate i rotCenter false])
          | none => (d1, 1, [Ev.sketchTranslate i true])
        else (d1, 1, [Ev.sketchTranslate i true])
      else (d, 0, [Ev.sketchTranslate i false])
    else (d, 0, [])

/-- The whole step 1.5 loop over the sketch-based ids; failures never stop
the iteration. -/
def sketchPass (T : RTransform) (R : Rot2) (rotationDegrees : ℚ) (rotationOrigin : XYZ) :
    Doc → List Nat → Doc × Nat × List Ev
  | d, [] => (d, 0, [])
  | d, i :: rest =>
    let r1 := processSketchElem d T R rotationDegrees rotationOrigin i
    let r2 := sketchPass T R rotationDegrees rotationOrigin r1.1 rest
    (r2.1, r1.2.1 + r2.2.1, r1.2.2 ++ r2.2.2)

/-- Whether any endpoint of curve c1 is within the tolerance (squared) of
an endpoint of curve c2. -/
def closeWithin (tolSq : ℚ) (c1 c2 : XYZ × XYZ) : Bool :=
  decide (c1.1.distSq c2.1 < tolSq) || decide (c1.1.distSq c2.2 < tolSq) ||
  decide (c1.2.distSq c2.1 < tolSq) || decide (c1.2.distSq c2.2 < tolSq)

/-- One (element, other wall) attempt of clean_wall_constraints (script.py
lines 108-131): auto-join the two walls when they are not joined, both
have location curves with endpoints within 0.1, and the API accepts it. -/
def cleanPair (d : Doc) (i j : Nat) : Doc :=
  match d.getElement i, d.getElement j with
  | some e1, some e2 =>
    if d.areJoined i j then d
    else
      match e1.locCurve, e2.locCurve with
      | some c1, some c2 =>
        if closeWithin (1 / 100) c1 c2 then
          if d.joinOkPair i j then { d with joined := (i, j) :: d.joined } else d
        else d
      | _, _ => d
  | _, _ => d

/-- Inner loop of clean_wall_constraints: try wall i against each other
wall of the list. -/
def cleanInner (i : Nat) : Doc → List Nat → Doc
  | d, [] => d
  | d, j :: rest => cleanInner i (if j = i then d else cleanPair d i j) rest

/-- Outer loop of clean_wall_constraints over the candidate walls. -/
def cleanOuter (ids : List Nat) : Doc → List Nat → Doc
  | d, [] => d
  | d, i :: rest => cleanOuter ids (cleanInner i d (wallIds d ids)) rest

/-- clean_wall_constraints (script.py lines 91-139): try to auto-join each
wall of the id list with every other wall of the list. -/
def clean_wall_constraints (d : Doc) (ids : List Nat) : Doc :=
  cleanOuter ids d (wallIds d ids)

/-- Outcome of one stored join record in restore_wall_joins. -/
inductive JoinOutcome where
  | droppedMissing
  | alreadyJoined
  | directJoined
  | fallbackJoined
  | droppedFailed
deriving DecidableEq, Repr

/-- The outcomes the script counts in restored_count. -/
def JoinOutcome.isRestored : JoinOutcome → Bool
  | .alreadyJoined => true
  | .directJoined => true
  | .fallbackJoined => true
  | _ => false

/-- One record of restore_wall_joins (script.py lines 153-195): drop the
record if either element is gone; report already-joined pairs as restored;
otherwise attempt a direct JoinGeometry (success is the collaborator input
directOk); on failure, retry once when both walls have location curves
with nearest endpoints within 1.0 (success is retryOk); otherwise the pair
is dropped. No branch escapes the record loop. -/
def restoreRecord (d : Doc) (rec : Nat × Nat) (directOk retryOk : Bool) :
    Doc × JoinOutcome :=
  match d.getElement rec.1, d.getElement rec.2 with
  | some w1, some w2 =>
    if d.areJoined rec.1 rec.2 then (d, .alreadyJoined)
    else if directOk then ({ d with joined := rec :: d.joined }, .directJoined)
    else
      match w1.locCurve, w2.locCurve with
      | some c1, some c2 =>
        if closeWithin 1 c1 c2 then
          if retryOk then ({ d with joined := rec :: d.joined }, .fallbackJoined)
          else (d, .droppedFailed)
        else (d, .droppedFailed)
      | _, _ => (d, .droppedFailed)
  | _, _ => (d, .droppedMissing)

/-- restore_wall_joins (script.py lines 142-197) over all stored records,
with one (directOk, retryOk) collaborator response pair per record. -/
def restore_wall_joins (d : Doc) :
    List (Nat × Nat) → List (Bool × Bool) → Doc × List JoinOutcome
  | [], _ => (d, [])
  | rec :: rest, oracle =>
    let r1 := restoreRecord d rec (oracle.headD (false, false)).1 (oracle.headD (false, false)).2
    let r2 := restore_wall_joins r1.1 rest oracle.tail
    (r2.1, r1.2 :: r2.2)

/-- Number of records restore_wall_joins reports as restored. -/
def restoredCount (outs : List JoinOutcome) : Nat :=
  (outs.filter JoinOutcome.isRestored).length

/-- Whether the batch MoveElements call succeeds as a whole: every
resolvable element accepts the move (the batch raises otherwise and the
script falls back to per-element moves). -/
def allCanTranslate (d : Doc) (ids : List Nat) : Bool :=
  ids.all (fun i => match d.getElement i with
    | some e => e.canTranslate
    | none => true)

/-- Number of per-element MoveElement successes in the fallback loop
(script.py lines 552-561). -/
def countIndividualMoves (d : Doc) (ids : List Nat) : Nat :=
  (ids.filter (fun i => match d.getElement i with
    | some e => e.canTranslate
    | none => false)).length

/-- Result of transform_elements_robust: final document, the returned
transformed_count, the phase/attempt trace, the captured wall joins, and
the per-record restoration outcomes. -/
structure RobustResult where
  doc : Doc
  transformedCount : Nat
  trace : List Ev
  wallJoins : List (Nat × Nat)
  outcomes : List JoinOutcome
deriving DecidableEq, Repr

/-- Step 1 of transform_elements_robust (script.py lines 360-534): when the
rotation angle is nonzero and a rotation origin is given, rotate non-hosted
then hosted regular elements about the vertical axis through the origin,
then run the sketch-element loop (step 1.5). Returns the document, the
count accumulated by the sketch loop, and the phase events. -/
def robustStep1 (d : Doc) (T : RTransform) (R : Rot2) (rotationDegrees : ℚ)
    (rotationOrigin : Option XYZ) (sketchIds regularIds : List Nat) : Doc × Nat × List Ev :=
  match rotationOrigin with
  | some ro =>
    if rotationDegrees ≠ 0 then
      let hn := separate_hosted_elements d regularIds
      let da := rotate_elements R ro d hn.2
      let db := rotate_elements R ro da hn.1
      let sp := sketchPass T R rotationDegrees ro db sketchIds
      (sp.1, sp.2.1, Ev.rotateNonHostedBatch :: Ev.rotateHostedBatch :: sp.2.2)
    else (d, 0, [])
  | none => (d, 0, [])

/-- Step 2 of transform_elements_robust (script.py lines 536-565): when the
translation vector (transform.Origin) is nonzero, re-validate the full id
list and move all of it; transformed_count is overwritten with the number
of valid ids when the batch succeeds, and otherwise accumulates on top of
the prior (sketch-loop) count. When the vector is zero, only count. -/
def robustStep2 (d1 : Doc) (ids : List Nat) (o : XYZ) (priorCount : Nat) :
    Doc × Nat × List Ev :=
  if o = XYZ.zero then
    (d1, (get_valid_elements d1 ids).length, [])
  else
    let valid := get_valid_elements d1 ids
    let moved := move_elements o d1 valid
    if allCanTranslate d1 valid then (moved, valid.length, [Ev.bulkTranslate])
    else (moved, priorCount + countIndividualMoves d1 valid, [Ev.bulkTranslate])

/-- transform_elements_robust (script.py lines 327-576). Step 0: split
sketch-based from regular ids and store wall joins among the regular ones.
Step 1: the rotation phase including the sketch-element loop. Step 2: the
re-validating bulk translation of the FULL id list. Step 3:
clean_wall_constraints over all ids, then restore_wall_joins on the stored
records. R is the linear part of the rotation by rotationDegrees. -/
def transform_elements_robust (d : Doc) (ids : List Nat) (T : RTransform) (R : Rot2)
    (rotationDegrees : ℚ) (rotationOrigin : Option XYZ)
    (joinOracle : List (Bool × Bool)) : RobustResult :=
  let sr := partitionSketchRegular d ids
  let wallJoins := store_wall_joins d sr.2
  let step1 := robustStep1 d T R rotationDegrees rotationOrigin sr.1 sr.2
  let step2 := robustStep2 step1.1 ids T.origin step1.2.1
  let d3 := clean_wall_constraints step2.1 ids
  let rj := restore_wall_joins d3 wallJoins joinOracle
  { doc := rj.1,
    transformedCount := step2.2.1,
    trace := Ev.captureJoins :: step1.2.2 ++ step2.2.2 ++ [Ev.cleanConstraints, Ev.restoreJoins],
    wallJoins := wallJoins,
    outcomes := rj.2 }

/-- Sample regular element used by concrete witnesses. -/
def witElemC2 : Elem :=
  { eid := 1, alive := true, sketchBased := false, hosted := false, isWall := false,
    locPoint := some ⟨10,0,0⟩, locCurve := none, canTranslate := true, canRotate := true }

/-- Sample one-element document used by the C2 witness. -/
def witDocC2 : Doc := { elems := [witElemC2], joined := [], joinOk := [] }

/-- Sample regular element at (10,0,0) for the C3 witness. -/
def witElemC3 : Elem :=
  { eid := 1, alive := true, sketchBased := false, hosted := false, isWall := false,
    locPoint := some ⟨10,0,0⟩, locCurve := none, canTranslate := true, canRotate := true }

/-- Two joined walls plus a regular element, for the C3 witness. -/
def witDocC3 : Doc :=
  { elems := [witElemC3,
      { eid := 2, alive := true, sketchBased := false, hosted := false, isWall := true,
        locPoint := none, locCurve := some (⟨0,0,0⟩, ⟨10,0,0⟩), canTranslate := true,
        canRotate := true },
      { eid := 3, alive := true, sketchBased := false, hosted := false, isWall := true,
        locPoint := none, locCurve := some (⟨10,0,0⟩, ⟨10,10,0⟩), canTranslate := true,
        canRotate := true }],
    joined := [(2, 3)], joinOk := [] }

/-- Sample regular element at (10,0,0) for the C4 witness. -/
def witElemC4 : Elem :=
  { eid := 1, alive := true, sketchBased := false, hosted := false, isWall := false,
    locPoint := some ⟨10,0,0⟩, locCurve := none, canTranslate := true, canRotate := true }

/-- Document with the element at (10,0,0) and two joined walls, for the C4
witness. -/
def witDocC4 : Doc :=
  { elems := [witElemC4,
      { eid := 2, alive := true, sketchBased := false, hosted := false, isWall := true,
        locPoint := none, locCurve := some (⟨0,0,0⟩, ⟨10,0,0⟩), canTranslate := true,
        canRotate := true },
      { eid := 3, alive := true, sketchBased := false, hosted := false, isWall := true,
        locPoint := none, locCurve := some (⟨10,0,0⟩, ⟨10,10,0⟩), canTranslate := true,
        canRotate := true }],
    joined := [(2, 3)], joinOk := [] }

/-- Sample sketch-based element with a location point, for the C10 witness. -/
def witElemC10 : Elem :=
  { eid := 7, alive := true, sketchBased := true, hosted := false, isWall := false,
    locPoint := some ⟨3,4,0⟩, locCurve := none, canTranslate := true, canRotate := true }

/-- One-sketch-element document for the C10 witness. -/
def witDocC10 : Doc := { elems := [witElemC10], joined := [], joinOk := [] }

/-- Sketch-based element without a location point, used by the C6
counterexample. -/
def cxElemC6 : Elem :=
  { eid := 5, alive := true, sketchBased := true, hosted := false, isWall := false,
    locPoint := none, locCurve := some (⟨100,100,0⟩, ⟨110,100,0⟩),
    canTranslate := true, canRotate := true }

/-- One-element document for the C6 counterexample. -/
def cxDocC6 : Doc := { elems := [cxElemC6], joined := [], joinOk := [] }

/-- Sketch element whose rotation the API rejects, for the C6 witness
(scenario C: translated but not reoriented, still a partial success). -/
def witElemC6 : Elem :=
  { eid := 9, alive := true, sketchBased := true, hosted := false, isWall := false,
    locPoint := some ⟨2,0,0⟩, locCurve := none, canTranslate := true, canRotate := false }

/-- One-element document for the C6 witness. -/
def witDocC6 : Doc := { elems := [witElemC6], joined := [], joinOk := [] }

/-- Sketch-based element with a location point, for the C8 counterexample. -/
def cxElemC8 : Elem :=
  { eid := 8, alive := true, sketchBased := true, hosted := false, isWall := false,
    locPoint := some ⟨1,1,0⟩, locCurve := none, canTranslate := true, canRotate := true }

/-- One-element document for the C8 counterexample. -/
def cxDocC8 : Doc := { elems := [cxElemC8], joined := [], joinOk := [] }

/-- First wall of the C7 witness document. -/
def witWallC7A : Elem :=
  { eid := 2, alive := true, sketchBased := false, hosted := false, isWall := true,
    locPoint := none, locCurve := some (⟨0,0,0⟩, ⟨10,0,0⟩), canTranslate := true,
    canRotate := true }

/-- Second wall of the C7 witness document, sharing an endpoint with the
first. -/
def witWallC7B : Elem :=
  { eid := 3, alive := true, sketchBased := false, hosted := false, isWall := true,
    locPoint := none, locCurve := some (⟨10,0,0⟩, ⟨10,10,0⟩), canTranslate := true,
    canRotate := true }

/-- Two unjoined walls with coincident endpoints, for the C7 witness. -/
def witDocC7 : Doc := { elems := [witWallC7A, witWallC7B], joined := [], joinOk := [] }

theorem rotZAbout_self (R : Rot2) (q : XYZ) : rotZAbout R q q = q := by
  cases q
  simp [rotZAbout, Rot2.apply]

theorem Rot2.apply_dot (R : Rot2) (h : R.c * R.c + R.s * R.s = 1) (v w : XYZ) :
    (R.apply v).dot (R.apply w) = v.dot w := by
  dsimp only [Rot2.apply, XYZ.dot]
  linear_combination (v.x * w.x + v.y * w.y) * h

/-- C1: a single-position marker processed by the marker resolver ends at
exactly the composed rigid transform of its original position, for every
orientation-correction rotation corr, because that correction rotates
about a vertical axis through the marker's new position and hence fixes
it. Holds for both the elevation-marker and the section-marker code path. -/
theorem c1_single_position_marker_final_position (T : RTransform) (corr : Rot2) (p : XYZ) :
    updateElevationFamilyMarkerPos T corr p = T.ofPoint p ∧
    updateSectionMarkerPos T corr p = T.ofPoint p := by
  constructor <;>
    simp [updateElevationFamilyMarkerPos, updateSectionMarkerPos, rotZAbout_self]

/-- C5: the local orientation-correction applied to markers is the fixed
constant 45 degrees about the marker's own pivot, for every value of the
structural rotation-angle input, in both the elevation and the section
marker resolver. -/
theorem c5_orientation_correction_constant (T : RTransform) (d d' : ℚ) (p : XYZ) :
    (elevationMarkerCorrection T d p).angleDeg = 45 ∧
    elevationMarkerCorrection T d p = elevationMarkerCorrection T d' p ∧
    (elevationMarkerCorrection T d p).pivot = T.ofPoint p ∧
    (sectionMarkerCorrection T d p).angleDeg = 45 ∧
    sectionMarkerCorrection T d p = sectionMarkerCorrection T d' p ∧
    (sectionMarkerCorrection T d p).pivot = T.ofPoint p := by
  refine ⟨rfl, rfl, rfl, rfl, rfl, rfl⟩

/-- C9: after the crop-frame update of the view-state propagator, the three
basis vectors of the new frame remain mutually orthonormal, given that the
old basis was orthonormal and the transform's linear part is orthonormal. -/
theorem c9_crop_frame_orthonormal (T : RTransform) (old : Transform3)
    (h1 : orthonormalBasis old) (h2 : T.lin.c * T.lin.c + T.lin.s * T.lin.s = 1) :
    orthonormalBasis (newCropTransform T old) := by
  obtain ⟨hxx, hyy, hzz, hxy, hxz, hyz⟩ := h1
  by_cases hT : T.isTranslation
  · unfold newCropTransform
    rw [if_pos hT]
    exact ⟨hxx, hyy, hzz, hxy, hxz, hyz⟩
  · unfold newCropTransform
    rw [if_neg hT]
    refine ⟨?_, ?_, ?_, ?_, ?_, ?_⟩ <;>
      dsimp only [orthonormalBasis, RTransform.ofVector] <;>
      rw [Rot2.apply_dot T.lin h2] <;> assumption

/-- Witness for C9: a frame with the standard basis, updated by the
90-degree rotation-plus-translation transform, stays orthonormal. -/
theorem c9_crop_frame_orthonormal_witness :
    orthonormalBasis ⟨⟨1,0,0⟩, ⟨0,1,0⟩, ⟨0,0,1⟩, ⟨3,4,0⟩⟩ ∧
    ((⟨⟨0,1⟩, ⟨50,50,0⟩⟩ : RTransform).lin.c * (⟨⟨0,1⟩, ⟨50,50,0⟩⟩ : RTransform).lin.c +
      (⟨⟨0,1⟩, ⟨50,50,0⟩⟩ : RTransform).lin.s * (⟨⟨0,1⟩, ⟨50,50,0⟩⟩ : RTransform).lin.s = 1) ∧
    orthonormalBasis (newCropTransform ⟨⟨0,1⟩, ⟨50,50,0⟩⟩ ⟨⟨1,0,0⟩, ⟨0,1,0⟩, ⟨0,0,1⟩, ⟨3,4,0⟩⟩) := by
  refine ⟨by norm_num [orthonormalBasis, XYZ.dot], by norm_num, ?_⟩
  exact c9_crop_frame_orthonormal ⟨⟨0,1⟩, ⟨50,50,0⟩⟩ ⟨⟨1,0,0⟩, ⟨0,1,0⟩, ⟨0,0,1⟩, ⟨3,4,0⟩⟩
    (by norm_num [orthonormalBasis, XYZ.dot]) (by norm_num)

@[simp] theorem Elem.mapPos_eid (f : XYZ → XYZ) (e : Elem) : (e.mapPos f).eid = e.eid := rfl

@[simp] theorem Elem.mapPos_alive (f : XYZ → XYZ) (e : Elem) : (e.mapPos f).alive = e.alive := rfl

@[simp] theorem Elem.mapPos_sketchBased (f : XYZ → XYZ) (e : Elem) :
    (e.mapPos f).sketchBased = e.sketchBased := rfl

@[simp] theorem Elem.mapPos_hosted (f : XYZ → XYZ) (e : Elem) : (e.mapPos f).hosted = e.hosted := rfl

@[simp] theorem Elem.mapPos_isWall (f : XYZ → XYZ) (e : Elem) : (e.mapPos f).isWall = e.isWall := rfl

@[simp] theorem Elem.mapPos_canTranslate (f : XYZ → XYZ) (e : Elem) :
    (e.mapPos f).canTranslate = e.canTranslate := rfl

@[simp] theorem Elem.mapPos_canRotate (f : XYZ → XYZ) (e : Elem) :
    (e.mapPos f).canRotate = e.canRotate := rfl

@[simp] theorem Elem.mapPos_locPoint (f : XYZ → XYZ) (e : Elem) :
    (e.mapPos f).locPoint = e.locPoint.map f := rfl

theorem findElem_update_ne (i j : Nat) (f : XYZ → XYZ) (l : List Elem) (hji : j ≠ i) :
    findElem j (l.map (fun e => if e.eid = i then e.mapPos f else e)) = findElem j l := by
  induction l with
  | nil => rfl
  | cons e es ih =>
    simp only [List.map_cons, findElem]
    by_cases hei : e.eid = i
    · rw [if_pos hei]
      have h1 : ¬((e.mapPos f).eid = j ∧ (e.mapPos f).alive = true) := by
        rintro ⟨ha, _⟩
        rw [Elem.mapPos_eid] at ha
        exact hji (ha.symm.trans hei)
      have h2 : ¬(e.eid = j ∧ e.alive = true) := by
        rintro ⟨ha, _⟩
        exact hji (ha.symm.trans hei)
      rw [if_neg h1, if_neg h2]
      exact ih
    · rw [if_neg hei]
      by_cases h : e.eid = j ∧ e.alive = true
      · rw [if_pos h, if_pos h]
      · rw [if_neg h, if_neg h]
        exact ih

theorem findElem_update_eq (i : Nat) (f : XYZ → XYZ) (l : List Elem) :
    findElem i (l.map (fun e => if e.eid = i then e.mapPos f else e)) =
      (findElem i l).map (Elem.mapPos f) := by
  induction l with
  | nil => rfl
  | cons e es ih =>
    simp only [List.map_cons, findElem]
    by_cases h : e.eid = i ∧ e.alive = true
    · rw [if_pos h.1]
      have h1 : (e.mapPos f).eid = i ∧ (e.mapPos f).alive = true := by
        rw [Elem.mapPos_eid, Elem.mapPos_alive]
        exact h
      rw [if_pos h1, if_pos h]
      rfl
    · by_cases hei : e.eid = i
      · rw [if_pos hei]
        have h1 : ¬((e.mapPos f).eid = i ∧ (e.mapPos f).alive = true) := by
          rw [Elem.mapPos_eid, Elem.mapPos_alive]
          exact h
        rw [if_neg h1, if_neg h]
        exact ih
      · rw [if_neg hei]
        have h2 : ¬(e.eid = i ∧ e.alive = true) := fun hh => hei hh.1
        rw [if_neg h2, if_neg h]
        exact ih

theorem Doc.getElement_mapElemPos_ne (d : Doc) (i j : Nat) (f : XYZ → XYZ) (hji : j ≠ i) :
    (d.mapElemPos i f).getElement j = d.getElement j :=
  findElem_update_ne i j f d.elems hji

theorem Doc.getElement_mapElemPos_eq (d : Doc) (i : Nat) (f : XYZ → XYZ) :
    (d.mapElemPos i f).getElement i = (d.getElement i).map (Elem.mapPos f) :=
  findElem_update_eq i f d.elems

@[simp] theorem Doc.mapElemPos_joined (d : Doc) (i : Nat) (f : XYZ → XYZ) :
    (d.mapElemPos i f).joined = d.joined := rfl

@[simp] theorem Doc.mapElemPos_joinOk (d : Doc) (i : Nat) (f : XYZ → XYZ) :
    (d.mapElemPos i f).joinOk = d.joinOk := rfl

theorem rotate_elements_joined (R : Rot2) (q : XYZ) (d : Doc) (ids : List Nat) :
    (rotate_elements R q d ids).joined = d.joined := by
  induction ids generalizing d with
  | nil => rfl
  | cons i rest ih =>
    rw [rotate_elements]
    split
    · split
      · rw [ih]
        rfl
      · rw [ih]
    · rw [ih]

theorem move_elements_joined (v : XYZ) (d : Doc) (ids : List Nat) :
    (move_elements v d ids).joined = d.joined := by
  induction ids generalizing d with
  | nil => rfl
  | cons i rest ih =>
    rw [move_elements]
    split
    · split
      · rw [ih]
        rfl
      · rw [ih]
    · rw [ih]

theorem processSketchElem_joined (d : Doc) (T : RTransform) (R : Rot2) (a : ℚ)
    (ro : XYZ) (i : Nat) : (processSketchElem d T R a ro i).1.joined = d.joined := by
  simp only [processSketchElem]
  repeat' split
  all_goals rfl

theorem sketchPass_joined (T : RTransform) (R : Rot2) (a : ℚ) (ro : XYZ)
    (d : Doc) (ids : List Nat) : (sketchPass T R a ro d ids).1.joined = d.joined := by
  induction ids generalizing d with
  | nil => rfl
  | cons i rest ih =>
    simp only [sketchPass]
    rw [ih, processSketchElem_joined]

theorem rotate_elements_getElement_not_mem (R : Rot2) (q : XYZ) (j : Nat) :
    ∀ (ids : List Nat) (d : Doc), j ∉ ids →
      (rotate_elements R q d ids).getElement j = d.getElement j := by
  intro ids
  induction ids with
  | nil => intro d _; rfl
  | cons i rest ih =>
    intro d hj
    have hji : j ≠ i := fun h => hj (h ▸ List.mem_cons_self i rest)
    have hjr : j ∉ rest := fun h => hj (List.mem_cons_of_mem i h)
    rw [rotate_elements]
    split
    · split
      · rw [ih _ hjr, Doc.getElement_mapElemPos_ne _ _ _ _ hji]
      · rw [ih _ hjr]
    · rw [ih _ hjr]

theorem rotate_elements_getElement_mem (R : Rot2) (q : XYZ) (j : Nat) :
    ∀ (ids : List Nat) (d : Doc) (e : Elem), ids.Nodup → j ∈ ids →
      d.getElement j = some e →
      (rotate_elements R q d ids).getElement j =
        some (if e.canRotate then e.mapPos (rotZAbout R q) else e) := by
  intro ids
  induction ids with
  | nil => intro d e _ h _; exact absurd h (List.not_mem_nil j)
  | cons i rest ih =>
    intro d e hnd hmem hget
    have hir : i ∉ rest := (List.nodup_cons.mp hnd).1
    have hndr : rest.Nodup := (List.nodup_cons.mp hnd).2
    rw [rotate_elements]
    by_cases hji : j = i
    · subst hji
      split
      · next e' heq =>
          rw [hget] at heq
          injection heq with he
          subst he
          by_cases hcr : e.canRotate = true
          · rw [if_pos hcr, rotate_elements_getElement_not_mem R q j rest _ hir,
              Doc.getElement_mapElemPos_eq, hget]
            rw [if_pos hcr]
            rfl
          · rw [if_neg hcr, rotate_elements_getElement_not_mem R q j rest _ hir, hget,
              if_neg hcr]
      · next heq =>
          rw [hget] at heq
          exact Option.noConfusion heq
    · have hmr : j ∈ rest := by
        rcases List.mem_cons.mp hmem with h | h
        · exact absurd h hji
        · exact h
      split
      · next e' heq =>
          by_cases hcr : e'.canRotate = true
          · rw [if_pos hcr]
            refine ih _ e hndr hmr ?_
            rw [Doc.getElement_mapElemPos_ne _ _ _ _ hji]
            exact hget
          · rw [if_neg hcr]
            exact ih _ e hndr hmr hget
      · next heq => exact ih _ e hndr hmr hget

theorem move_elements_getElement_not_mem (v : XYZ) (j : Nat) :
    ∀ (ids : List Nat) (d : Doc), j ∉ ids →
      (move_elements v d ids).getElement j = d.getElement j := by
  intro ids
  induction ids with
  | nil => intro d _; rfl
  | cons i rest ih =>
    intro d hj
    have hji : j ≠ i := fun h => hj (h ▸ List.mem_cons_self i rest)
    have hjr : j ∉ rest := fun h => hj (List.mem_cons_of_mem i h)
    rw [move_elements]
    split
    · split
      · rw [ih _ hjr, Doc.getElement_mapElemPos_ne _ _ _ _ hji]
      · rw [ih _ hjr]
    · rw [ih _ hjr]

theorem move_elements_getElement_mem (v : XYZ) (j : Nat) :
    ∀ (ids : List Nat) (d : Doc) (e : Elem), ids.Nodup → j ∈ ids →
      d.getElement j = some e →
      (move_elements v d ids).getElement j =
        some (if e.canTranslate then e.mapPos (fun p => p + v) else e) := by
  intro ids
  induction ids with
  | nil => intro d e _ h _; exact absurd h (List.not_mem_nil j)
  | cons i rest ih =>
    intro d e hnd hmem hget
    have hir : i ∉ rest := (List.nodup_cons.mp hnd).1
    have hndr : rest.Nodup := (List.nodup_cons.mp hnd).2
    rw [move_elements]
    by_cases hji : j = i
    · subst hji
      split
      · next e' heq =>
          rw [hget] at heq
          injection heq with he
          subst he
          by_cases hcr : e.canTranslate = true
          · rw [if_pos hcr, move_elements_getElement_not_mem v j rest _ hir,
              Doc.getElement_mapElemPos_eq, hget]
            rw [if_pos hcr]
            rfl
          · rw [if_neg hcr, move_elements_getElement_not_mem v j rest _ hir, hget,
              if_neg hcr]
      · next heq =>
          rw [hget] at heq
          exact Option.noConfusion heq
    · have hmr : j ∈ rest := by
        rcases List.mem_cons.mp hmem with h | h
        · exact absurd h hji
        · exact h
      split
      · next e' heq =>
          by_cases hcr : e'.canTranslate = true
          · rw [if_pos hcr]
            refine ih _ e hndr hmr ?_
            rw [Doc.getElement_mapElemPos_ne _ _ _ _ hji]
            exact hget
          · rw [if_neg hcr]
            exact ih _ e hndr hmr hget
      · next heq => exact ih _ e hndr hmr hget

theorem processSketchElem_getElement_ne (d : Doc) (T : RTransform) (R : Rot2) (a : ℚ)
    (ro : XYZ) (i j : Nat) (hji : j ≠ i) :
    (processSketchElem d T R a ro i).1.getElement j = d.getElement j := by
  simp only [processSketchElem]
  repeat' split
  all_goals (try rfl)
  all_goals (repeat rw [Doc.getElement_mapElemPos_ne _ _ _ _ hji])

theorem sketchPass_getElement_not_mem (T : RTransform) (R : Rot2) (a : ℚ) (ro : XYZ)
    (j : Nat) :
    ∀ (ids : List Nat) (d : Doc), j ∉ ids →
      (sketchPass T R a ro d ids).1.getElement j = d.getElement j := by
  intro ids
  induction ids with
  | nil => intro d _; rfl
  | cons i rest ih =>
    intro d hj
    have hji : j ≠ i := fun h => hj (h ▸ List.mem_cons_self i rest)
    have hjr : j ∉ rest := fun h => hj (List.mem_cons_of_mem i h)
    simp only [sketchPass]
    rw [ih _ hjr, processSketchElem_getElement_ne _ _ _ _ _ _ _ hji]

theorem Doc.getElement_congr_elems (d d' : Doc) (j : Nat) (h : d'.elems = d.elems) :
    d'.getElement j = d.getElement j := by
  unfold Doc.getElement
  rw [h]

theorem cleanPair_elems (d : Doc) (i j : Nat) : (cleanPair d i j).elems = d.elems := by
  rw [cleanPair]
  repeat' split
  all_goals rfl

theorem cleanInner_elems (i : Nat) :
    ∀ (js : List Nat) (d : Doc), (cleanInner i d js).elems = d.elems := by
  intro js
  induction js with
  | nil => intro d; rfl
  | cons j rest ih =>
    intro d
    rw [cleanInner, ih]
    split
    · rfl
    · rw [cleanPair_elems]

theorem cleanOuter_elems (ids : List Nat) :
    ∀ (ws : List Nat) (d : Doc), (cleanOuter ids d ws).elems = d.elems := by
  intro ws
  induction ws with
  | nil => intro d; rfl
  | cons i rest ih =>
    intro d
    rw [cleanOuter, ih, cleanInner_elems]

theorem clean_wall_constraints_elems (d : Doc) (ids : List Nat) :
    (clean_wall_constraints d ids).elems = d.elems := by
  rw [clean_wall_constraints, cleanOuter_elems]

theorem restoreRecord_elems (d : Doc) (rec : Nat × Nat) (directOk retryOk : Bool) :
    (restoreRecord d rec directOk retryOk).1.elems = d.elems := by
  rw [restoreRecord]
  repeat' split
  all_goals rfl

theorem restore_wall_joins_elems :
    ∀ (recs : List (Nat × Nat)) (oracle : List (Bool × Bool)) (d : Doc),
      (restore_wall_joins d recs oracle).1.elems = d.elems := by
  intro recs
  induction recs with
  | nil => intro oracle d; rfl
  | cons rec rest ih =>
    intro oracle d
    simp only [restore_wall_joins]
    rw [ih, restoreRecord_elems]

theorem areJoined_cons (d : Doc) (p : Nat × Nat) (a b : Nat)
    (h : d.areJoined a b = true) :
    ({ d with joined := p :: d.joined } : Doc).areJoined a b = true := by
  have hj : ({ d with joined := p :: d.joined } : Doc).joined = p :: d.joined := rfl
  rw [Doc.areJoined, hj, List.any_cons]
  rw [Doc.areJoined] at h
  rw [h, Bool.or_true]

theorem cleanPair_areJoined_mono (d : Doc) (i j a b : Nat)
    (h : d.areJoined a b = true) : (cleanPair d i j).areJoined a b = true := by
  rw [cleanPair]
  repeat' split
  all_goals (first | exact h | exact areJoined_cons d (i, j) a b h)

theorem cleanInner_areJoined_mono (i : Nat) :
    ∀ (js : List Nat) (d : Doc) (a b : Nat), d.areJoined a b = true →
      (cleanInner i d js).areJoined a b = true := by
  intro js
  induction js with
  | nil => intro d a b h; exact h
  | cons j rest ih =>
    intro d a b h
    rw [cleanInner]
    refine ih _ a b ?_
    split
    · exact h
    · exact cleanPair_areJoined_mono d i j a b h

theorem cleanOuter_areJoined_mono (ids : List Nat) :
    ∀ (ws : List Nat) (d : Doc) (a b : Nat), d.areJoined a b = true →
      (cleanOuter ids d ws).areJoined a b = true := by
  intro ws
  induction ws with
  | nil => intro d a b h; exact h
  | cons i rest ih =>
    intro d a b h
    rw [cleanOuter]
    exact ih _ a b (cleanInner_areJoined_mono i _ d a b h)

theorem clean_wall_constraints_areJoined_mono (d : Doc) (ids : List Nat) (a b : Nat)
    (h : d.areJoined a b = true) :
    (clean_wall_constraints d ids).areJoined a b = true := by
  rw [clean_wall_constraints]
  exact cleanOuter_areJoined_mono ids _ d a b h

theorem wallIds_spec (d : Doc) (ids : List Nat) (i : Nat) (h : i ∈ wallIds d ids) :
    ∃ e, d.getElement i = some e ∧ e.isWall = true := by
  have hp := (List.mem_filter.mp h).2
  cases hd : d.getElement i with
  | none =>
    simp only [hd] at hp
    exact absurd hp (by simp)
  | some e =>
    simp only [hd] at hp
    exact ⟨e, rfl, hp⟩

theorem joinedPairsAmong_spec (d : Doc) :
    ∀ (ws : List Nat) (rec : Nat × Nat), rec ∈ joinedPairsAmong d ws →
      d.areJoined rec.1 rec.2 = true ∧ rec.1 ∈ ws ∧ rec.2 ∈ ws := by
  intro ws
  induction ws with
  | nil => intro rec h; cases h
  | cons w rest ih =>
    intro rec h
    rw [joinedPairsAmong] at h
    rcases List.mem_append.mp h with h1 | h2
    · obtain ⟨w2, hw2, hrec⟩ := List.mem_map.mp h1
      have hj := (List.mem_filter.mp hw2).2
      have hw2r := (List.mem_filter.mp hw2).1
      refine ⟨?_, ?_, ?_⟩
      · rw [← hrec] at *
        exact hj
      · rw [← hrec]
        exact List.mem_cons_self w rest
      · rw [← hrec]
        exact List.mem_cons_of_mem w hw2r
    · obtain ⟨hj, h1, h2⟩ := ih rec h2
      exact ⟨hj, List.mem_cons_of_mem w h1, List.mem_cons_of_mem w h2⟩

theorem store_wall_joins_spec (d : Doc) (ids : List Nat) (rec : Nat × Nat)
    (h : rec ∈ store_wall_joins d ids) :
    d.areJoined rec.1 rec.2 = true ∧
    (∃ e, d.getElement rec.1 = some e ∧ e.isWall = true) ∧
    (∃ e, d.getElement rec.2 = some e ∧ e.isWall = true) := by
  rw [store_wall_joins] at h
  obtain ⟨hj, h1, h2⟩ := joinedPairsAmong_spec d _ rec h
  exact ⟨hj, wallIds_spec d ids rec.1 h1, wallIds_spec d ids rec.2 h2⟩

theorem partitionSketchRegular_sublists (d : Doc) :
    ∀ ids : List Nat,
      (partitionSketchRegular d ids).1.Sublist ids ∧
      (partitionSketchRegular d ids).2.Sublist ids := by
  intro ids
  induction ids with
  | nil => exact ⟨List.nil_sublist _, List.nil_sublist _⟩
  | cons i rest ih =>
    simp only [partitionSketchRegular]
    split
    · split
      · exact ⟨ih.1.cons₂ i, ih.2.cons i⟩
      · exact ⟨ih.1.cons i, ih.2.cons₂ i⟩
    · exact ⟨ih.1.cons i, ih.2.cons i⟩

theorem partition_sketch_spec (d : Doc) :
    ∀ (ids : List Nat) (i : Nat), i ∈ (partitionSketchRegular d ids).1 →
      ∃ e, d.getElement i = some e ∧ e.sketchBased = true := by
  intro ids
  induction ids with
  | nil => intro i h; cases h
  | cons j rest ih =>
    intro i h
    simp only [partitionSketchRegular] at h
    split at h
    · next e heq =>
        split at h
        · next hsk =>
            rcases List.mem_cons.mp h with rfl | hmem
            · exact ⟨e, heq, hsk⟩
            · exact ih i hmem
        · next hsk => exact ih i h
    · next heq => exact ih i h

theorem partition_regular_spec (d : Doc) :
    ∀ (ids : List Nat) (i : Nat), i ∈ (partitionSketchRegular d ids).2 →
      ∃ e, d.getElement i = some e ∧ e.sketchBased = false := by
  intro ids
  induction ids with
  | nil => intro i h; cases h
  | cons j rest ih =>
    intro i h
    simp only [partitionSketchRegular] at h
    split at h
    · next e heq =>
        split at h
        · next hsk => exact ih i h
        · next hsk =>
            rcases List.mem_cons.mp h with rfl | hmem
            · exact ⟨e, heq, Bool.not_eq_true _ ▸ (by simpa using hsk)⟩
            · exact ih i hmem
    · next heq => exact ih i h

theorem partition_mem_regular (d : Doc) :
    ∀ (ids : List Nat) (i : Nat) (e : Elem), i ∈ ids → d.getElement i = some e →
      e.sketchBased = false → i ∈ (partitionSketchRegular d ids).2 := by
  intro ids
  induction ids with
  | nil => intro i e h _ _; cases h
  | cons j rest ih =>
    intro i e hmem hget hsk
    simp only [partitionSketchRegular]
    rcases List.mem_cons.mp hmem with rfl | hmr
    · split
      · next e' heq =>
          rw [hget] at heq
          injection heq with he
          subst he
          split
          · next hs => rw [hsk] at hs; exact absurd hs (by simp)
          · next hs => exact List.mem_cons_self i _
      · next heq =>
          rw [hget] at heq
          exact Option.noConfusion heq
    · split
      · next e' heq =>
          split
          · exact ih i e hmr hget hsk
          · exact List.mem_cons_of_mem j (ih i e hmr hget hsk)
      · next heq => exact ih i e hmr hget hsk

theorem partition_mem_sketch (d : Doc) :
    ∀ (ids : List Nat) (i : Nat) (e : Elem), i ∈ ids → d.getElement i = some e →
      e.sketchBased = true → i ∈ (partitionSketchRegular d ids).1 := by
  intro ids
  induction ids with
  | nil => intro i e h _ _; cases h
  | cons j rest ih =>
    intro i e hmem hget hsk
    simp only [partitionSketchRegular]
    rcases List.mem_cons.mp hmem with rfl | hmr
    · split
      · next e' heq =>
          rw [hget] at heq
          injection heq with he
          subst he
          split
          · next hs => exact List.mem_cons_self i _
          · next hs => exact absurd hsk hs
      · next heq =>
          rw [hget] at heq
          exact Option.noConfusion heq
    · split
      · next e' heq =>
          split
          · exact List.mem_cons_of_mem j (ih i e hmr hget hsk)
          · exact ih i e hmr hget hsk
      · next heq => exact ih i e hmr hget hsk

theorem separate_hosted_sublists (d : Doc) :
    ∀ ids : List Nat,
      (separate_hosted_elements d ids).1.Sublist ids ∧
      (separate_hosted_elements d ids).2.Sublist ids := by
  intro ids
  induction ids with
  | nil => exact ⟨List.nil_sublist _, List.nil_sublist _⟩
  | cons i rest ih =>
    simp only [separate_hosted_elements]
    split
    · split
      · exact ⟨ih.1.cons₂ i, ih.2.cons i⟩
      · exact ⟨ih.1.cons i, ih.2.cons₂ i⟩
    · exact ⟨ih.1.cons i, ih.2.cons₂ i⟩

theorem separate_hosted_hosted_spec (d : Doc) :
    ∀ (ids : List Nat) (i : Nat), i ∈ (separate_hosted_elements d ids).1 →
      ∃ e, d.getElement i = some e ∧ e.hosted = true := by
  intro ids
  induction ids with
  | nil => intro i h; cases h
  | cons j rest ih =>
    intro i h
    simp only [separate_hosted_elements] at h
    split at h
    · next e heq =>
        split at h
        · next hh =>
            rcases List.mem_cons.mp h with rfl | hmem
            · exact ⟨e, heq, hh⟩
            · exact ih i hmem
        · next hh => exact ih i h
    · next heq => exact ih i h

theorem separate_hosted_mem_hosted (d : Doc) :
    ∀ (ids : List Nat) (i : Nat) (e : Elem), i ∈ ids → d.getElement i = some e →
      e.hosted = true → i ∈ (separate_hosted_elements d ids).1 := by
  intro ids
  induction ids with
  | nil => intro i e h _ _; cases h
  | cons j rest ih =>
    intro i e hmem hget hh
    simp only [separate_hosted_elements]
    rcases List.mem_cons.mp hmem with rfl | hmr
    · split
      · next e' heq =>
          rw [hget] at heq
          injection heq with he
          subst he
          split
          · next hs => exact List.mem_cons_self i _
          · next hs => exact absurd hh hs
      · next heq =>
          rw [hget] at heq
          exact Option.noConfusion heq
    · split
      · next e' heq =>
          split
          · exact List.mem_cons_of_mem j (ih i e hmr hget hh)
          · exact ih i e hmr hget hh
      · next heq => exact ih i e hmr hget hh

theorem separate_hosted_mem_nonhosted (d : Doc) :
    ∀ (ids : List Nat) (i : Nat) (e : Elem), i ∈ ids → d.getElement i = some e →
      e.hosted = false → i ∈ (separate_hosted_elements d ids).2 := by
  intro ids
  induction ids with
  | nil => intro i e h _ _; cases h
  | cons j rest ih =>
    intro i e hmem hget hh
    simp only [separate_hosted_elements]
    rcases List.mem_cons.mp hmem with rfl | hmr
    · split
      · next e' heq =>
          rw [hget] at heq
          injection heq with he
          subst he
          split
          · next hs => rw [hh] at hs; exact absurd hs (by simp)
          · next hs => exact List.mem_cons_self i _
      · next heq =>
          rw [hget] at heq
          exact Option.noConfusion heq
    · split
      · next e' heq =>
          split
          · exact ih i e hmr hget hh
          · exact List.mem_cons_of_mem j (ih i e hmr hget hh)
      · next heq => exact List.mem_cons_of_mem j (ih i e hmr hget hh)

theorem separate_hosted_nonhosted_spec (d : Doc) :
    ∀ (ids : List Nat) (i : Nat), i ∈ (separate_hosted_elements d ids).2 →
      d.getElement i = none ∨ ∃ e, d.getElement i = some e ∧ e.hosted = false := by
  intro ids
  induction ids with
  | nil => intro i h; cases h
  | cons j rest ih =>
    intro i h
    simp only [separate_hosted_elements] at h
    split at h
    · next e heq =>
        split at h
        · next hh => exact ih i h
        · next hh =>
            rcases List.mem_cons.mp h with rfl | hmem
            · exact Or.inr ⟨e, heq, by simpa using hh⟩
            · exact ih i hmem
    · next heq =>
        rcases List.mem_cons.mp h with rfl | hmem
        · exact Or.inl heq
        · exact ih i hmem

theorem XYZ.add_zero_right (v : XYZ) : v + XYZ.zero = v := by
  cases v
  simp [XYZ.zero]

theorem XYZ.add_eq_self_iff (a v : XYZ) : a + v = a ↔ v = XYZ.zero := by
  cases a
  cases v
  simp [XYZ.zero, XYZ.mk.injEq]

theorem XYZ.sub_eq_zero_iff (a b : XYZ) : a - b = XYZ.zero ↔ a = b := by
  cases a
  cases b
  simp [XYZ.zero, XYZ.mk.injEq, sub_eq_zero]

theorem combined_transform_origin (a : ℚ) (R : Rot2) (c t : XYZ) (ha : a ≠ 0) :
    (combined_transform a R c t).origin = t + (c - R.apply c) := by
  rw [combined_transform, if_pos ha]
  cases c
  cases t
  simp only [RTransform.multiply, Transform.createTranslation, Transform.createRotationAtPoint,
    Rot2.apply, Rot2.idRot, XYZ.sub_def, XYZ.add_def, XYZ.mk.injEq]
  refine ⟨by ring, by ring, by ring⟩

theorem rotZAbout_add_origin (a : ℚ) (R : Rot2) (c t p : XYZ) (ha : a ≠ 0) :
    rotZAbout R c p + (combined_transform a R c t).origin =
      (combined_transform a R c t).ofPoint p + (c - R.apply c) := by
  rw [combined_transform, if_pos ha]
  cases c
  cases t
  cases p
  simp only [rotZAbout, RTransform.multiply, RTransform.ofPoint, Transform.createTranslation,
    Transform.createRotationAtPoint, Rot2.apply, Rot2.mul, Rot2.idRot, XYZ.sub_def,
    XYZ.add_def, XYZ.mk.injEq]
  refine ⟨by ring, by ring, by ring⟩

theorem robustStep1_regular (d : Doc) (T : RTransform) (R : Rot2) (a : ℚ) (ro : XYZ)
    (ids : List Nat) (i : Nat) (e : Elem) (hnd : ids.Nodup) (hmem : i ∈ ids)
    (hget : d.getElement i = some e) (hsk : e.sketchBased = false)
    (hcr : e.canRotate = true) (ha : a ≠ 0) :
    (robustStep1 d T R a (some ro) (partitionSketchRegular d ids).1
        (partitionSketchRegular d ids).2).1.getElement i =
      some (e.mapPos (rotZAbout R ro)) := by
  have hregmem : i ∈ (partitionSketchRegular d ids).2 :=
    partition_mem_regular d ids i e hmem hget hsk
  have hsknm : i ∉ (partitionSketchRegular d ids).1 := by
    intro hc
    obtain ⟨e', hg', hs'⟩ := partition_sketch_spec d ids i hc
    rw [hget] at hg'
    injection hg' with he
    subst he
    rw [hs'] at hsk
    exact absurd hsk (by simp)
  have hnodreg : (partitionSketchRegular d ids).2.Nodup :=
    ((partitionSketchRegular_sublists d ids).2).nodup hnd
  have hnod1 : (separate_hosted_elements d (partitionSketchRegular d ids).2).1.Nodup :=
    ((separate_hosted_sublists d (partitionSketchRegular d ids).2).1).nodup hnodreg
  have hnod2 : (separate_hosted_elements d (partitionSketchRegular d ids).2).2.Nodup :=
    ((separate_hosted_sublists d (partitionSketchRegular d ids).2).2).nodup hnodreg
  simp only [robustStep1, if_pos ha]
  rw [sketchPass_getElement_not_mem T R a ro i _ _ hsknm]
  by_cases hh : e.hosted = true
  · have hm1 : i ∈ (separate_hosted_elements d (partitionSketchRegular d ids).2).1 :=
      separate_hosted_mem_hosted d _ i e hregmem hget hh
    have hnm2 : i ∉ (separate_hosted_elements d (partitionSketchRegular d ids).2).2 := by
      intro hc
      rcases separate_hosted_nonhosted_spec d _ i hc with hnone | ⟨e', hg', hh'⟩
      · rw [hget] at hnone
        exact Option.noConfusion hnone
      · rw [hget] at hg'
        injection hg' with he
        subst he
        rw [hh'] at hh
        exact absurd hh (by simp)
    rw [rotate_elements_getElement_mem R ro i _ _ e hnod1 hm1
      (by rw [rotate_elements_getElement_not_mem R ro i _ d hnm2]; exact hget)]
    rw [if_pos hcr]
  · have hm2 : i ∈ (separate_hosted_elements d (partitionSketchRegular d ids).2).2 :=
      separate_hosted_mem_nonhosted d _ i e hregmem hget (by simpa using hh)
    have hnm1 : i ∉ (separate_hosted_elements d (partitionSketchRegular d ids).2).1 := by
      intro hc
      obtain ⟨e', hg', hh'⟩ := separate_hosted_hosted_spec d _ i hc
      rw [hget] at hg'
      injection hg' with he
      subst he
      exact hh hh'
    rw [rotate_elements_getElement_not_mem R ro i _ _ hnm1,
      rotate_elements_getElement_mem R ro i _ d e hnod2 hm2 hget, if_pos hcr]

theorem robustStep2_getElement (d1 : Doc) (ids : List Nat) (o : XYZ) (pc : Nat)
    (i : Nat) (e : Elem) (hnd : ids.Nodup) (hmem : i ∈ ids)
    (hget : d1.getElement i = some e) (hct : e.canTranslate = true) :
    (robustStep2 d1 ids o pc).1.getElement i =
      some (if o = XYZ.zero then e else e.mapPos (fun p => p + o)) := by
  rw [robustStep2]
  by_cases hz : o = XYZ.zero
  · rw [if_pos hz, if_pos hz]
    exact hget
  · rw [if_neg hz, if_neg hz]
    have hval : i ∈ get_valid_elements d1 ids :=
      List.mem_filter.mpr ⟨hmem, by rw [hget]; rfl⟩
    have hvnd : (get_valid_elements d1 ids).Nodup := hnd.filter _
    by_cases hat : allCanTranslate d1 (get_valid_elements d1 ids) = true
    · rw [if_pos hat]
      rw [move_elements_getElement_mem o i _ d1 e hvnd hval hget, if_pos hct]
    · rw [if_neg hat]
      rw [move_elements_getElement_mem o i _ d1 e hvnd hval hget, if_pos hct]

theorem transform_elements_robust_doc_getElement (d : Doc) (ids : List Nat)
    (T : RTransform) (R : Rot2) (a : ℚ) (ro : Option XYZ)
    (oracle : List (Bool × Bool)) (i : Nat) :
    (transform_elements_robust d ids T R a ro oracle).doc.getElement i =
      (robustStep2 (robustStep1 d T R a ro (partitionSketchRegular d ids).1
          (partitionSketchRegular d ids).2).1 ids T.origin
        (robustStep1 d T R a ro (partitionSketchRegular d ids).1
          (partitionSketchRegular d ids).2).2.1).1.getElement i := by
  simp only [transform_elements_robust]
  rw [Doc.getElement_congr_elems _ _ i (restore_wall_joins_elems _ _ _),
    Doc.getElement_congr_elems _ _ i (clean_wall_constraints_elems _ _)]

/-- C2: for a regular (non-sketch-based) element at position p, under a
nonzero rotation angle with rotation center c and input translation t, the
ordered transformer rotates about the vertical axis through c and then
translates by the composed transform's origin, which equals t + c - R·c;
the final position is combined_transform(p) + (c - R·c), and it differs
from combined_transform(p) whenever R·c ≠ c. -/
theorem c2_regular_element_net_motion (d : Doc) (ids : List Nat) (R : Rot2) (a : ℚ)
    (c t : XYZ) (oracle : List (Bool × Bool)) (i : Nat) (e : Elem) (p : XYZ)
    (hnd : ids.Nodup) (hmem : i ∈ ids) (hget : d.getElement i = some e)
    (hsk : e.sketchBased = false) (hcr : e.canRotate = true) (hct : e.canTranslate = true)
    (hpt : e.locPoint = some p) (ha : a ≠ 0) :
    ∃ e', (transform_elements_robust d ids (combined_transform a R c t) R a (some c)
        oracle).doc.getElement i = some e' ∧
      e'.locPoint = some ((combined_transform a R c t).ofPoint p + (c - R.apply c)) ∧
      (combined_transform a R c t).origin = t + (c - R.apply c) ∧
      (R.apply c ≠ c →
        some ((combined_transform a R c t).ofPoint p + (c - R.apply c)) ≠
          some ((combined_transform a R c t).ofPoint p)) := by
  have h1 := robustStep1_regular d (combined_transform a R c t) R a c ids i e
    hnd hmem hget hsk hcr ha
  have h2 := robustStep2_getElement _ ids (combined_transform a R c t).origin
    (robustStep1 d (combined_transform a R c t) R a (some c)
      (partitionSketchRegular d ids).1 (partitionSketchRegular d ids).2).2.1 i
    (e.mapPos (rotZAbout R c)) hnd hmem h1
    (by rw [Elem.mapPos_canTranslate]; exact hct)
  rw [transform_elements_robust_doc_getElement, h2]
  refine ⟨_, rfl, ?_, combined_transform_origin a R c t ha, ?_⟩
  · by_cases hz : (combined_transform a R c t).origin = XYZ.zero
    · rw [if_pos hz]
      have hro := rotZAbout_add_origin a R c t p ha
      rw [hz, XYZ.add_zero_right] at hro
      rw [Elem.mapPos_locPoint, hpt, Option.map_some', hro]
    · rw [if_neg hz]
      rw [Elem.mapPos_locPoint, Elem.mapPos_locPoint, hpt, Option.map_some',
        Option.map_some', rotZAbout_add_origin a R c t p ha]
  · intro hRc heq
    injection heq with he
    rw [XYZ.add_eq_self_iff, XYZ.sub_eq_zero_iff] at he
    exact hRc he.symm

/-- Witness for C2 at a concrete input: 90-degree rotation (linear part
(0,1)) about center (5,0,0) with translation (1,2,0). -/
theorem c2_regular_element_net_motion_witness :
    ([1] : List Nat).Nodup ∧ 1 ∈ ([1] : List Nat) ∧
    witDocC2.getElement 1 = some witElemC2 ∧
    witElemC2.sketchBased = false ∧ witElemC2.canRotate = true ∧
    witElemC2.canTranslate = true ∧ witElemC2.locPoint = some ⟨10,0,0⟩ ∧
    (90 : ℚ) ≠ 0 ∧
    (∃ e', (transform_elements_robust witDocC2 [1]
        (combined_transform 90 ⟨0,1⟩ ⟨5,0,0⟩ ⟨1,2,0⟩) ⟨0,1⟩ 90 (some ⟨5,0,0⟩)
        []).doc.getElement 1 = some e' ∧
      e'.locPoint = some ((combined_transform 90 ⟨0,1⟩ ⟨5,0,0⟩ ⟨1,2,0⟩).ofPoint ⟨10,0,0⟩ +
        (⟨5,0,0⟩ - Rot2.apply ⟨0,1⟩ ⟨5,0,0⟩)) ∧
      (combined_transform 90 ⟨0,1⟩ ⟨5,0,0⟩ ⟨1,2,0⟩).origin =
        ⟨1,2,0⟩ + (⟨5,0,0⟩ - Rot2.apply ⟨0,1⟩ ⟨5,0,0⟩) ∧
      (Rot2.apply ⟨0,1⟩ ⟨5,0,0⟩ ≠ ⟨5,0,0⟩ →
        some ((combined_transform 90 ⟨0,1⟩ ⟨5,0,0⟩ ⟨1,2,0⟩).ofPoint ⟨10,0,0⟩ +
            (⟨5,0,0⟩ - Rot2.apply ⟨0,1⟩ ⟨5,0,0⟩)) ≠
          some ((combined_transform 90 ⟨0,1⟩ ⟨5,0,0⟩ ⟨1,2,0⟩).ofPoint ⟨10,0,0⟩))) :=
  ⟨by decide, by decide, by decide, rfl, rfl, rfl, rfl, by decide,
   c2_regular_element_net_motion witDocC2 [1] ⟨0,1⟩ 90 ⟨5,0,0⟩ ⟨1,2,0⟩ [] 1 witElemC2
     ⟨10,0,0⟩ (by decide) (by decide) (by decide) rfl rfl rfl rfl (by decide)⟩

theorem Doc.getElement_mapElemPos_isSome (d : Doc) (i : Nat) (f : XYZ → XYZ) (j : Nat) :
    ((d.mapElemPos i f).getElement j).isSome = (d.getElement j).isSome := by
  by_cases hji : j = i
  · subst hji
    rw [Doc.getElement_mapElemPos_eq]
    cases d.getElement j <;> rfl
  · rw [Doc.getElement_mapElemPos_ne _ _ _ _ hji]

theorem rotate_elements_getElement_isSome (R : Rot2) (q : XYZ) (j : Nat) :
    ∀ (ids : List Nat) (d : Doc),
      ((rotate_elements R q d ids).getElement j).isSome = (d.getElement j).isSome := by
  intro ids
  induction ids with
  | nil => intro d; rfl
  | cons i rest ih =>
    intro d
    rw [rotate_elements]
    split
    · split
      · rw [ih, Doc.getElement_mapElemPos_isSome]
      · rw [ih]
    · rw [ih]

theorem move_elements_getElement_isSome (v : XYZ) (j : Nat) :
    ∀ (ids : List Nat) (d : Doc),
      ((move_elements v d ids).getElement j).isSome = (d.getElement j).isSome := by
  intro ids
  induction ids with
  | nil => intro d; rfl
  | cons i rest ih =>
    intro d
    rw [move_elements]
    split
    · split
      · rw [ih, Doc.getElement_mapElemPos_isSome]
      · rw [ih]
    · rw [ih]

theorem processSketchElem_getElement_isSome (d : Doc) (T : RTransform) (R : Rot2)
    (a : ℚ) (ro : XYZ) (i j : Nat) :
    ((processSketchElem d T R a ro i).1.getElement j).isSome = (d.getElement j).isSome := by
  simp only [processSketchElem]
  repeat' split
  all_goals (try rfl)
  all_goals (repeat rw [Doc.getElement_mapElemPos_isSome])

theorem sketchPass_getElement_isSome (T : RTransform) (R : Rot2) (a : ℚ) (ro : XYZ)
    (j : Nat) :
    ∀ (ids : List Nat) (d : Doc),
      ((sketchPass T R a ro d ids).1.getElement j).isSome = (d.getElement j).isSome := by
  intro ids
  induction ids with
  | nil => intro d; rfl
  | cons i rest ih =>
    intro d
    simp only [sketchPass]
    rw [ih, processSketchElem_getElement_isSome]

theorem robustStep1_getElement_isSome (d : Doc) (T : RTransform) (R : Rot2) (a : ℚ)
    (ro : Option XYZ) (sks regs : List Nat) (j : Nat) :
    ((robustStep1 d T R a ro sks regs).1.getElement j).isSome = (d.getElement j).isSome := by
  simp only [robustStep1]
  split
  · split
    · rw [sketchPass_getElement_isSome, rotate_elements_getElement_isSome,
        rotate_elements_getElement_isSome]
    · rfl
  · rfl

theorem robustStep1_joined (d : Doc) (T : RTransform) (R : Rot2) (a : ℚ)
    (ro : Option XYZ) (sks regs : List Nat) :
    (robustStep1 d T R a ro sks regs).1.joined = d.joined := by
  simp only [robustStep1]
  split
  · split
    · rw [sketchPass_joined, rotate_elements_joined, rotate_elements_joined]
    · rfl
  · rfl

theorem robustStep2_getElement_isSome (d1 : Doc) (ids : List Nat) (o : XYZ) (pc : Nat)
    (j : Nat) :
    ((robustStep2 d1 ids o pc).1.getElement j).isSome = (d1.getElement j).isSome := by
  simp only [robustStep2]
  split
  · rfl
  · split
    · rw [move_elements_getElement_isSome]
    · rw [move_elements_getElement_isSome]

theorem robustStep2_joined (d1 : Doc) (ids : List Nat) (o : XYZ) (pc : Nat) :
    (robustStep2 d1 ids o pc).1.joined = d1.joined := by
  simp only [robustStep2]
  split
  · rfl
  · split
    · rw [move_elements_joined]
    · rw [move_elements_joined]

theorem Doc.areJoined_congr (d d' : Doc) (a b : Nat) (h : d'.joined = d.joined) :
    d'.areJoined a b = d.areJoined a b := by
  unfold Doc.areJoined
  rw [h]

theorem Doc.getElement_isSome_congr (d d' : Doc) (j : Nat) (h : d'.elems = d.elems) :
    (d'.getElement j).isSome = (d.getElement j).isSome := by
  rw [Doc.getElement_congr_elems d d' j h]

theorem restore_all_already (d : Doc) :
    ∀ (recs : List (Nat × Nat)) (oracle : List (Bool × Bool)),
      (∀ rec ∈ recs, (d.getElement rec.1).isSome = true ∧
        (d.getElement rec.2).isSome = true ∧ d.areJoined rec.1 rec.2 = true) →
      (restore_wall_joins d recs oracle).2 =
        recs.map (fun _ => JoinOutcome.alreadyJoined) := by
  intro recs
  induction recs with
  | nil => intro oracle _; rfl
  | cons rec rest ih =>
    intro oracle hall
    obtain ⟨hs1, hs2, hj⟩ := hall rec (List.mem_cons_self _ _)
    obtain ⟨w1, hg1⟩ := Option.isSome_iff_exists.mp hs1
    obtain ⟨w2, hg2⟩ := Option.isSome_iff_exists.mp hs2
    have hrr : restoreRecord d rec (oracle.headD (false, false)).1
        (oracle.headD (false, false)).2 = (d, JoinOutcome.alreadyJoined) := by
      simp [restoreRecord, hg1, hg2, hj]
    simp only [restore_wall_joins, hrr]
    rw [ih oracle.tail (fun r hm => hall r (List.mem_cons_of_mem _ hm))]
    rfl

theorem restoredCount_all_already (recs : List (Nat × Nat)) :
    restoredCount (recs.map (fun _ => JoinOutcome.alreadyJoined)) = recs.length := by
  induction recs with
  | nil => rfl
  | cons r rest ih =>
    simp only [List.map_cons, restoredCount, List.filter_cons, List.length_cons] at *
    have hres : JoinOutcome.isRestored JoinOutcome.alreadyJoined = true := rfl
    rw [if_pos hres]
    simp only [List.length_cons]
    rw [ih]

/-- Every stored wall-join record is reported as already joined by the
restorer: liveness and the joined relation are untouched by the purely
positional mutations of steps 1 and 2, and constraint clean-up only adds
joins. -/
theorem robust_outcomes_all_already (d : Doc) (ids : List Nat) (T : RTransform)
    (R : Rot2) (a : ℚ) (ro : Option XYZ) (oracle : List (Bool × Bool)) :
    (transform_elements_robust d ids T R a ro oracle).outcomes =
      (transform_elements_robust d ids T R a ro oracle).wallJoins.map
        (fun _ => JoinOutcome.alreadyJoined) := by
  have houts : (transform_elements_robust d ids T R a ro oracle).outcomes =
      (restore_wall_joins
        (clean_wall_constraints
          (robustStep2 (robustStep1 d T R a ro (partitionSketchRegular d ids).1
              (partitionSketchRegular d ids).2).1 ids T.origin
            (robustStep1 d T R a ro (partitionSketchRegular d ids).1
              (partitionSketchRegular d ids).2).2.1).1 ids)
        (store_wall_joins d (partitionSketchRegular d ids).2) oracle).2 := rfl
  have hwj : (transform_elements_robust d ids T R a ro oracle).wallJoins =
      store_wall_joins d (partitionSketchRegular d ids).2 := rfl
  rw [houts, hwj]
  apply restore_all_already
  intro rec hrec
  obtain ⟨hj, ⟨e1, hg1, _⟩, ⟨e2, hg2, _⟩⟩ :=
    store_wall_joins_spec d (partitionSketchRegular d ids).2 rec hrec
  refine ⟨?_, ?_, ?_⟩
  · rw [Doc.getElement_isSome_congr _ _ _ (clean_wall_constraints_elems _ _),
      robustStep2_getElement_isSome, robustStep1_getElement_isSome, hg1]
    rfl
  · rw [Doc.getElement_isSome_congr _ _ _ (clean_wall_constraints_elems _ _),
      robustStep2_getElement_isSome, robustStep1_getElement_isSome, hg2]
    rfl
  · apply clean_wall_constraints_areJoined_mono
    rw [Doc.areJoined_congr _ _ _ _ (robustStep2_joined _ _ _ _),
      Doc.areJoined_congr _ _ _ _ (robustStep1_joined _ _ _ _ _ _ _)]
    exact hj

theorem combined_transform_zero_angle (R : Rot2) (c t : XYZ) :
    combined_transform 0 R c t = Transform.createTranslation t := by
  rw [combined_transform, if_neg]
  simp

/-- C3: with translation (50,50,0) and rotation angle 0, every regular
element with a valid location is shifted by exactly (50,50,0), and every
previously joined wall pair is reported as already joined by the restorer,
with the restored count equal to the number of stored joins (zero
restoration failures). -/
theorem c3_translation_scenario (d : Doc) (ids : List Nat) (R : Rot2) (c : XYZ)
    (oracle : List (Bool × Bool)) (hnd : ids.Nodup) :
    (∀ i e p, i ∈ ids → d.getElement i = some e → e.sketchBased = false →
      e.canTranslate = true → e.locPoint = some p →
      ∃ e', (transform_elements_robust d ids (combined_transform 0 R c ⟨50,50,0⟩) R 0
          (some c) oracle).doc.getElement i = some e' ∧
        e'.locPoint = some (p + ⟨50,50,0⟩)) ∧
    (transform_elements_robust d ids (combined_transform 0 R c ⟨50,50,0⟩) R 0 (some c)
        oracle).outcomes =
      (transform_elements_robust d ids (combined_transform 0 R c ⟨50,50,0⟩) R 0 (some c)
        oracle).wallJoins.map (fun _ => JoinOutcome.alreadyJoined) ∧
    restoredCount ((transform_elements_robust d ids (combined_transform 0 R c ⟨50,50,0⟩)
        R 0 (some c) oracle).outcomes) =
      (transform_elements_robust d ids (combined_transform 0 R c ⟨50,50,0⟩) R 0 (some c)
        oracle).wallJoins.length := by
  refine ⟨?_, robust_outcomes_all_already d ids _ R 0 (some c) oracle, ?_⟩
  · intro i e p hmem hget hsk hct hpt
    have hstep1 : robustStep1 d (combined_transform 0 R c ⟨50,50,0⟩) R 0 (some c)
        (partitionSketchRegular d ids).1 (partitionSketchRegular d ids).2 = (d, 0, []) := by
      simp only [robustStep1]
      rw [if_neg (by simp)]
    have horig : (combined_transform 0 R c ⟨50,50,0⟩).origin = ⟨50,50,0⟩ := by
      rw [combined_transform_zero_angle]
      rfl
    have h2 := robustStep2_getElement d ids ⟨50,50,0⟩ 0 i e hnd hmem hget hct
    rw [if_neg (by decide : ¬(⟨50,50,0⟩ : XYZ) = XYZ.zero)] at h2
    refine ⟨e.mapPos (fun q => q + ⟨50,50,0⟩), ?_, ?_⟩
    · rw [transform_elements_robust_doc_getElement, hstep1, horig]
      exact h2
    · rw [Elem.mapPos_locPoint, hpt, Option.map_some']
  · rw [robust_outcomes_all_already d ids _ R 0 (some c) oracle]
    exact restoredCount_all_already _

/-- Witness for C3 on a concrete three-element document with one stored
wall join. -/
theorem c3_translation_scenario_witness :
    ([1, 2, 3] : List Nat).Nodup ∧
    ((∀ i e p, i ∈ ([1, 2, 3] : List Nat) → witDocC3.getElement i = some e →
      e.sketchBased = false → e.canTranslate = true → e.locPoint = some p →
      ∃ e', (transform_elements_robust witDocC3 [1, 2, 3]
          (combined_transform 0 ⟨0,1⟩ ⟨5,0,0⟩ ⟨50,50,0⟩) ⟨0,1⟩ 0
          (some ⟨5,0,0⟩) []).doc.getElement i = some e' ∧
        e'.locPoint = some (p + ⟨50,50,0⟩)) ∧
    (transform_elements_robust witDocC3 [1, 2, 3]
        (combined_transform 0 ⟨0,1⟩ ⟨5,0,0⟩ ⟨50,50,0⟩) ⟨0,1⟩ 0 (some ⟨5,0,0⟩)
        []).outcomes =
      (transform_elements_robust witDocC3 [1, 2, 3]
        (combined_transform 0 ⟨0,1⟩ ⟨5,0,0⟩ ⟨50,50,0⟩) ⟨0,1⟩ 0 (some ⟨5,0,0⟩)
        []).wallJoins.map (fun _ => JoinOutcome.alreadyJoined) ∧
    restoredCount ((transform_elements_robust witDocC3 [1, 2, 3]
        (combined_transform 0 ⟨0,1⟩ ⟨5,0,0⟩ ⟨50,50,0⟩) ⟨0,1⟩ 0 (some ⟨5,0,0⟩)
        []).outcomes) =
      (transform_elements_robust witDocC3 [1, 2, 3]
        (combined_transform 0 ⟨0,1⟩ ⟨5,0,0⟩ ⟨50,50,0⟩) ⟨0,1⟩ 0 (some ⟨5,0,0⟩)
        []).wallJoins.length) :=
  ⟨by decide, c3_translation_scenario witDocC3 [1, 2, 3] ⟨0,1⟩ ⟨5,0,0⟩ [] (by decide)⟩

/-- C4: rotation of 90 degrees (linear part (0,1)) about center (0,0,0)
with zero translation sends a regular element at (10,0,0) exactly to
(0,10,0), and its recorded join partners are reported as restored
(already joined). -/
theorem c4_rotation_scenario (d : Doc) (ids : List Nat) (oracle : List (Bool × Bool))
    (i : Nat) (e : Elem) (hnd : ids.Nodup) (hmem : i ∈ ids)
    (hget : d.getElement i = some e) (hsk : e.sketchBased = false)
    (hcr : e.canRotate = true) (hct : e.canTranslate = true)
    (hpt : e.locPoint = some ⟨10,0,0⟩) :
    (∃ e', (transform_elements_robust d ids
        (combined_transform 90 ⟨0,1⟩ XYZ.zero XYZ.zero) ⟨0,1⟩ 90 (some XYZ.zero)
        oracle).doc.getElement i = some e' ∧ e'.locPoint = some ⟨0,10,0⟩) ∧
    (transform_elements_robust d ids (combined_transform 90 ⟨0,1⟩ XYZ.zero XYZ.zero)
        ⟨0,1⟩ 90 (some XYZ.zero) oracle).outcomes =
      (transform_elements_robust d ids (combined_transform 90 ⟨0,1⟩ XYZ.zero XYZ.zero)
        ⟨0,1⟩ 90 (some XYZ.zero) oracle).wallJoins.map
          (fun _ => JoinOutcome.alreadyJoined) ∧
    restoredCount ((transform_elements_robust d ids
        (combined_transform 90 ⟨0,1⟩ XYZ.zero XYZ.zero) ⟨0,1⟩ 90 (some XYZ.zero)
        oracle).outcomes) =
      (transform_elements_robust d ids (combined_transform 90 ⟨0,1⟩ XYZ.zero XYZ.zero)
        ⟨0,1⟩ 90 (some XYZ.zero) oracle).wallJoins.length := by
  refine ⟨?_, robust_outcomes_all_already d ids _ _ 90 (some XYZ.zero) oracle, ?_⟩
  · have horig : (combined_transform 90 ⟨0,1⟩ XYZ.zero XYZ.zero).origin = XYZ.zero := by
      rw [combined_transform_origin 90 ⟨0,1⟩ XYZ.zero XYZ.zero (by norm_num)]
      norm_num [XYZ.zero, Rot2.apply, XYZ.mk.injEq]
    have h1 := robustStep1_regular d (combined_transform 90 ⟨0,1⟩ XYZ.zero XYZ.zero)
      ⟨0,1⟩ 90 XYZ.zero ids i e hnd hmem hget hsk hcr (by norm_num)
    have h2 := robustStep2_getElement
      (robustStep1 d (combined_transform 90 ⟨0,1⟩ XYZ.zero XYZ.zero) ⟨0,1⟩ 90
        (some XYZ.zero) (partitionSketchRegular d ids).1
        (partitionSketchRegular d ids).2).1 ids
      (combined_transform 90 ⟨0,1⟩ XYZ.zero XYZ.zero).origin
      (robustStep1 d (combined_transform 90 ⟨0,1⟩ XYZ.zero XYZ.zero) ⟨0,1⟩ 90
        (some XYZ.zero) (partitionSketchRegular d ids).1
        (partitionSketchRegular d ids).2).2.1 i
      (e.mapPos (rotZAbout ⟨0,1⟩ XYZ.zero)) hnd hmem h1
      (by rw [Elem.mapPos_canTranslate]; exact hct)
    rw [if_pos horig] at h2
    refine ⟨e.mapPos (rotZAbout ⟨0,1⟩ XYZ.zero), ?_, ?_⟩
    · rw [transform_elements_robust_doc_getElement]
      exact h2
    · rw [Elem.mapPos_locPoint, hpt, Option.map_some']
      norm_num [rotZAbout, Rot2.apply, XYZ.zero, XYZ.mk.injEq]
  · rw [robust_outcomes_all_already d ids _ _ 90 (some XYZ.zero) oracle]
    exact restoredCount_all_already _

/-- Witness for C4 on a concrete document. -/
theorem c4_rotation_scenario_witness :
    ([1, 2, 3] : List Nat).Nodup ∧ 1 ∈ ([1, 2, 3] : List Nat) ∧
    witDocC4.getElement 1 = some witElemC4 ∧ witElemC4.sketchBased = false ∧
    witElemC4.canRotate = true ∧ witElemC4.canTranslate = true ∧
    witElemC4.locPoint = some ⟨10,0,0⟩ ∧
    ((∃ e', (transform_elements_robust witDocC4 [1, 2, 3]
        (combined_transform 90 ⟨0,1⟩ XYZ.zero XYZ.zero) ⟨0,1⟩ 90 (some XYZ.zero)
        []).doc.getElement 1 = some e' ∧ e'.locPoint = some ⟨0,10,0⟩) ∧
    (transform_elements_robust witDocC4 [1, 2, 3]
        (combined_transform 90 ⟨0,1⟩ XYZ.zero XYZ.zero) ⟨0,1⟩ 90 (some XYZ.zero)
        []).outcomes =
      (transform_elements_robust witDocC4 [1, 2, 3]
        (combined_transform 90 ⟨0,1⟩ XYZ.zero XYZ.zero) ⟨0,1⟩ 90 (some XYZ.zero)
        []).wallJoins.map (fun _ => JoinOutcome.alreadyJoined) ∧
    restoredCount ((transform_elements_robust witDocC4 [1, 2, 3]
        (combined_transform 90 ⟨0,1⟩ XYZ.zero XYZ.zero) ⟨0,1⟩ 90 (some XYZ.zero)
        []).outcomes) =
      (transform_elements_robust witDocC4 [1, 2, 3]
        (combined_transform 90 ⟨0,1⟩ XYZ.zero XYZ.zero) ⟨0,1⟩ 90 (some XYZ.zero)
        []).wallJoins.length) :=
  ⟨by decide, by decide, by decide, rfl, rfl, rfl, rfl,
   c4_rotation_scenario witDocC4 [1, 2, 3] [] 1 witElemC4 (by decide) (by decide)
     (by decide) rfl rfl rfl rfl⟩

theorem processSketchElem_locPoint (d : Doc) (T : RTransform) (R : Rot2) (a : ℚ)
    (ro : XYZ) (i : Nat) (e : Elem) (p : XYZ)
    (hget : d.getElement i = some e) (hct : e.canTranslate = true)
    (hpt : e.locPoint = some p) (hgate : originLengthAboveGate T.origin = true)
    (ha : a ≠ 0) :
    ∃ e', (processSketchElem d T R a ro i).1.getElement i = some e' ∧
      e'.locPoint = some (p + T.origin) ∧ e'.canTranslate = true := by
  have hd1 : (d.mapElemPos i fun q => q + T.origin).getElement i =
      some (e.mapPos fun q => q + T.origin) := by
    rw [Doc.getElement_mapElemPos_eq, hget]
    rfl
  have hpt1 : (e.mapPos fun q => q + T.origin).locPoint = some (p + T.origin) := by
    rw [Elem.mapPos_locPoint, hpt, Option.map_some']
  simp only [processSketchElem, hget, hgate, hct, if_true, ne_eq, ha, not_false_iff,
    ite_true, hd1]
  by_cases hcr : (e.mapPos fun q => q + T.origin).canRotate = true
  · simp only [hcr, if_true, ite_true]
    refine ⟨(e.mapPos fun q => q + T.origin).mapPos
      (rotZAbout R ((e.mapPos fun q => q + T.origin).locPoint.getD ro)), ?_, ?_, ?_⟩
    · rw [Doc.getElement_mapElemPos_eq, hd1]
      rfl
    · rw [Elem.mapPos_locPoint, hpt1, Option.map_some', Option.getD_some, rotZAbout_self]
    · rw [Elem.mapPos_canTranslate, Elem.mapPos_canTranslate]
      exact hct
  · simp only [hcr, if_false, Bool.false_eq_true, ite_false]
    exact ⟨_, hd1, hpt1, by rw [Elem.mapPos_canTranslate]; exact hct⟩

theorem sketchPass_locPoint (T : RTransform) (R : Rot2) (a : ℚ) (ro : XYZ) :
    ∀ (ids : List Nat) (d : Doc) (i : Nat) (e : Elem) (p : XYZ), ids.Nodup → i ∈ ids →
      d.getElement i = some e → e.canTranslate = true → e.locPoint = some p →
      originLengthAboveGate T.origin = true → a ≠ 0 →
      ∃ e', (sketchPass T R a ro d ids).1.getElement i = some e' ∧
        e'.locPoint = some (p + T.origin) ∧ e'.canTranslate = true := by
  intro ids
  induction ids with
  | nil => intro d i e p _ h; cases h
  | cons j rest ih =>
    intro d i e p hnd hmem hget hct hpt hgate ha
    simp only [sketchPass]
    by_cases hij : i = j
    · subst hij
      obtain ⟨e', hg', hp', hct'⟩ :=
        processSketchElem_locPoint d T R a ro i e p hget hct hpt hgate ha
      have hnotr : i ∉ rest := (List.nodup_cons.mp hnd).1
      rw [sketchPass_getElement_not_mem T R a ro i rest _ hnotr]
      exact ⟨e', hg', hp', hct'⟩
    · have hmr : i ∈ rest := by
        rcases List.mem_cons.mp hmem with h | h
        · exact absurd h hij
        · exact h
      refine ih _ i e p (List.nodup_cons.mp hnd).2 hmr ?_ hct hpt hgate ha
      rw [processSketchElem_getElement_ne _ _ _ _ _ _ _ hij]
      exact hget

theorem originGate_ne_zero (o : XYZ) (h : originLengthAboveGate o = true) :
    o ≠ XYZ.zero := by
  intro hz
  subst hz
  rw [originLengthAboveGate] at h
  norm_num [XYZ.lenSq, XYZ.zero] at h

/-- C10: under a nonzero rotation angle, a sketch-based element whose
individual step 1.5 translation succeeds (the composed origin passes the
length gate) and that carries a location point ends up displaced by the
origin vector twice: once in the sketch loop and once more in the bulk
translation of the full id list; the final location is p + origin + origin,
which differs from the single-translation position p + origin. -/
theorem c10_sketch_double_translation (d : Doc) (ids : List Nat) (R : Rot2) (a : ℚ)
    (c t : XYZ) (oracle : List (Bool × Bool)) (i : Nat) (e : Elem) (p : XYZ)
    (hnd : ids.Nodup) (hmem : i ∈ ids) (hget : d.getElement i = some e)
    (hsk : e.sketchBased = true) (hct : e.canTranslate = true)
    (hpt : e.locPoint = some p) (ha : a ≠ 0)
    (hgate : originLengthAboveGate (combined_transform a R c t).origin = true) :
    ∃ e', (transform_elements_robust d ids (combined_transform a R c t) R a (some c)
        oracle).doc.getElement i = some e' ∧
      e'.locPoint = some (p + (combined_transform a R c t).origin +
        (combined_transform a R c t).origin) ∧
      some (p + (combined_transform a R c t).origin +
        (combined_transform a R c t).origin) ≠
        some (p + (combined_transform a R c t).origin) := by
  have hskmem : i ∈ (partitionSketchRegular d ids).1 :=
    partition_mem_sketch d ids i e hmem hget hsk
  have hsknd : (partitionSketchRegular d ids).1.Nodup :=
    ((partitionSketchRegular_sublists d ids).1).nodup hnd
  have hregnm : ∀ js : List Nat,
      js.Sublist (partitionSketchRegular d ids).2 → i ∉ js := by
    intro js hsub hc
    obtain ⟨e', hg', hs'⟩ := partition_regular_spec d ids i (hsub.subset hc)
    rw [hget] at hg'
    injection hg' with he
    subst he
    rw [hs'] at hsk
    exact absurd hsk (by simp)
  have hstep1 : ∃ e', (robustStep1 d (combined_transform a R c t) R a (some c)
      (partitionSketchRegular d ids).1 (partitionSketchRegular d ids).2).1.getElement i =
      some e' ∧ e'.locPoint = some (p + (combined_transform a R c t).origin) ∧
      e'.canTranslate = true := by
    simp only [robustStep1, if_pos ha]
    have hda : (rotate_elements R c d
        (separate_hosted_elements d (partitionSketchRegular d ids).2).2).getElement i =
        some e := by
      rw [rotate_elements_getElement_not_mem R c i _ d
        (hregnm _ (separate_hosted_sublists d _).2)]
      exact hget
    have hdb : (rotate_elements R c (rotate_elements R c d
        (separate_hosted_elements d (partitionSketchRegular d ids).2).2)
        (separate_hosted_elements d (partitionSketchRegular d ids).2).1).getElement i =
        some e := by
      rw [rotate_elements_getElement_not_mem R c i _ _
        (hregnm _ (separate_hosted_sublists d _).1)]
      exact hda
    exact sketchPass_locPoint (combined_transform a R c t) R a c _ _ i e p hsknd
      hskmem hdb hct hpt hgate ha
  obtain ⟨e1, hg1, hp1, hct1⟩ := hstep1
  have h2 := robustStep2_getElement
    (robustStep1 d (combined_transform a R c t) R a (some c)
      (partitionSketchRegular d ids).1 (partitionSketchRegular d ids).2).1 ids
    (combined_transform a R c t).origin
    (robustStep1 d (combined_transform a R c t) R a (some c)
      (partitionSketchRegular d ids).1 (partitionSketchRegular d ids).2).2.1 i e1
    hnd hmem hg1 hct1
  rw [if_neg (originGate_ne_zero _ hgate)] at h2
  refine ⟨e1.mapPos (fun q => q + (combined_transform a R c t).origin), ?_, ?_, ?_⟩
  · rw [transform_elements_robust_doc_getElement]
    exact h2
  · rw [Elem.mapPos_locPoint, hp1, Option.map_some']
  · intro heq
    injection heq with he
    rw [XYZ.add_eq_self_iff] at he
    exact originGate_ne_zero _ hgate he

/-- Witness for C10: 90-degree rotation about the origin with translation
(50,50,0); the sketch element at (3,4,0) is displaced by the origin vector
twice. -/
theorem c10_sketch_double_translation_witness :
    ([7] : List Nat).Nodup ∧ 7 ∈ ([7] : List Nat) ∧
    witDocC10.getElement 7 = some witElemC10 ∧ witElemC10.sketchBased = true ∧
    witElemC10.canTranslate = true ∧ witElemC10.locPoint = some ⟨3,4,0⟩ ∧
    (90 : ℚ) ≠ 0 ∧
    originLengthAboveGate (combined_transform 90 ⟨0,1⟩ XYZ.zero ⟨50,50,0⟩).origin = true ∧
    (∃ e', (transform_elements_robust witDocC10 [7]
        (combined_transform 90 ⟨0,1⟩ XYZ.zero ⟨50,50,0⟩) ⟨0,1⟩ 90 (some XYZ.zero)
        []).doc.getElement 7 = some e' ∧
      e'.locPoint = some (⟨3,4,0⟩ + (combined_transform 90 ⟨0,1⟩ XYZ.zero ⟨50,50,0⟩).origin +
        (combined_transform 90 ⟨0,1⟩ XYZ.zero ⟨50,50,0⟩).origin) ∧
      some (⟨3,4,0⟩ + (combined_transform 90 ⟨0,1⟩ XYZ.zero ⟨50,50,0⟩).origin +
        (combined_transform 90 ⟨0,1⟩ XYZ.zero ⟨50,50,0⟩).origin) ≠
        some (⟨3,4,0⟩ + (combined_transform 90 ⟨0,1⟩ XYZ.zero ⟨50,50,0⟩).origin)) :=
  ⟨by decide, by decide, by decide, rfl, rfl, rfl, by decide,
   by norm_num [originLengthAboveGate, combined_transform, RTransform.multiply,
     Transform.createTranslation, Transform.createRotationAtPoint, Rot2.apply, Rot2.mul,
     Rot2.idRot, XYZ.lenSq, XYZ.zero],
   c10_sketch_double_translation witDocC10 [7] ⟨0,1⟩ 90 XYZ.zero ⟨50,50,0⟩ [] 7
     witElemC10 ⟨3,4,0⟩ (by decide) (by decide) (by decide) rfl rfl rfl (by decide)
     (by norm_num [originLengthAboveGate, combined_transform, RTransform.multiply,
       Transform.createTranslation, Transform.createRotationAtPoint, Rot2.apply, Rot2.mul,
       Rot2.idRot, XYZ.lenSq, XYZ.zero])⟩

/-- C6 as amended: for each sketch-based element processed individually,
translation by the composed origin is attempted first; the rotation is
attempted only when that translation succeeded (and the angle is nonzero),
about the element's own post-translation location point when it has one
and otherwise about the GLOBAL rotation center; a rotation failure leaves
the element translated, still counts it as transformed, and the loop goes
on to the remaining elements. -/
theorem c6_sketch_constraint_policy_amended (d : Doc) (T : RTransform) (R : Rot2)
    (a : ℚ) (ro : XYZ) (i : Nat) (e : Elem) (rest : List Nat)
    (hget : d.getElement i = some e) (hgate : originLengthAboveGate T.origin = true)
    (ha : a ≠ 0) :
    (e.canTranslate = true →
      (processSketchElem d T R a ro i).2.2 =
        [Ev.sketchTranslate i true,
         Ev.sketchRotate i ((e.locPoint.map (fun q => q + T.origin)).getD ro)
           e.canRotate] ∧
      (processSketchElem d T R a ro i).2.1 = 1 ∧
      (e.canRotate = false →
        (processSketchElem d T R a ro i).1 = d.mapElemPos i (fun q => q + T.origin))) ∧
    (e.canTranslate = false →
      (processSketchElem d T R a ro i).2.2 = [Ev.sketchTranslate i false] ∧
      (processSketchElem d T R a ro i).2.1 = 0 ∧
      (processSketchElem d T R a ro i).1 = d) ∧
    (sketchPass T R a ro d (i :: rest)).2.1 =
      (processSketchElem d T R a ro i).2.1 +
        (sketchPass T R a ro (processSketchElem d T R a ro i).1 rest).2.1 := by
  refine ⟨?_, ?_, rfl⟩
  · intro hct
    have hd1 : (d.mapElemPos i fun q => q + T.origin).getElement i =
        some (e.mapPos fun q => q + T.origin) := by
      rw [Doc.getElement_mapElemPos_eq, hget]
      rfl
    simp only [processSketchElem, hget, hgate, hct, if_true, ne_eq, ha, not_false_iff,
      ite_true, hd1]
    by_cases hcr : e.canRotate = true
    · have hcr' : (e.mapPos fun q => q + T.origin).canRotate = true := by
        rw [Elem.mapPos_canRotate]
        exact hcr
      simp only [hcr', if_true, ite_true, hcr, Elem.mapPos_locPoint]
      refine ⟨trivial, trivial, ?_⟩
      intro hcf
      exact absurd hcf (by simp)
    · have hcr' : ¬(e.mapPos fun q => q + T.origin).canRotate = true := by
        rw [Elem.mapPos_canRotate]
        exact hcr
      have hcrf : e.canRotate = false := by
        cases hc : e.canRotate
        · rfl
        · exact absurd hc hcr
      simp only [hcr', if_false, ite_false, hcrf, Elem.mapPos_locPoint,
        Bool.false_eq_true]
      refine ⟨trivial, trivial, ?_⟩
      intro hcf
      trivial
  · intro hcf
    have hcf' : ¬e.canTranslate = true := by
      rw [hcf]
      simp
    simp only [processSketchElem, hget, hgate, if_true, hcf', ite_false,
      Bool.false_eq_true]
    refine ⟨trivial, trivial, trivial⟩

/-- Counterexample to C6 as stated: for a sketch-based element with no
location point, the step 1.5 rotation is attempted about the GLOBAL
rotation center (here (7,8,0)), not about any point of the element itself
(its curve lies near (100,100,0), and near (165,151,0) after the
translation by (65,51,0)). -/
theorem c6_sketch_constraint_policy_counterexample :
    cxElemC6.locPoint = none ∧
    (processSketchElem cxDocC6 ⟨⟨0,1⟩, ⟨65,51,0⟩⟩ ⟨0,1⟩ 90 ⟨7,8,0⟩ 5).2.2 =
      [Ev.sketchTranslate 5 true, Ev.sketchRotate 5 ⟨7,8,0⟩ true] ∧
    (⟨7,8,0⟩ : XYZ) ≠ ⟨165,151,0⟩ ∧ (⟨7,8,0⟩ : XYZ) ≠ ⟨175,151,0⟩ := by
  refine ⟨rfl, ?_, by decide, by decide⟩
  norm_num [processSketchElem, cxDocC6, cxElemC6, Doc.getElement, findElem,
    Doc.mapElemPos, Elem.mapPos, originLengthAboveGate, XYZ.lenSq]

/-- Witness for the amended C6 at a concrete input whose rotation is
rejected: translation succeeds, the rotation attempt is recorded as failed
about the element's own moved location point, the element counts as one
partial success, and the document holds the translated element. -/
theorem c6_sketch_constraint_policy_witness :
    witDocC6.getElement 9 = some witElemC6 ∧
    originLengthAboveGate (⟨⟨0,1⟩, ⟨50,50,0⟩⟩ : RTransform).origin = true ∧
    (90 : ℚ) ≠ 0 ∧
    ((witElemC6.canTranslate = true →
      (processSketchElem witDocC6 ⟨⟨0,1⟩, ⟨50,50,0⟩⟩ ⟨0,1⟩ 90 ⟨0,0,0⟩ 9).2.2 =
        [Ev.sketchTranslate 9 true,
         Ev.sketchRotate 9
           ((witElemC6.locPoint.map
             (fun q => q + (⟨⟨0,1⟩, ⟨50,50,0⟩⟩ : RTransform).origin)).getD ⟨0,0,0⟩)
           witElemC6.canRotate] ∧
      (processSketchElem witDocC6 ⟨⟨0,1⟩, ⟨50,50,0⟩⟩ ⟨0,1⟩ 90 ⟨0,0,0⟩ 9).2.1 = 1 ∧
      (witElemC6.canRotate = false →
        (processSketchElem witDocC6 ⟨⟨0,1⟩, ⟨50,50,0⟩⟩ ⟨0,1⟩ 90 ⟨0,0,0⟩ 9).1 =
          witDocC6.mapElemPos 9
            (fun q => q + (⟨⟨0,1⟩, ⟨50,50,0⟩⟩ : RTransform).origin))) ∧
    (witElemC6.canTranslate = false →
      (processSketchElem witDocC6 ⟨⟨0,1⟩, ⟨50,50,0⟩⟩ ⟨0,1⟩ 90 ⟨0,0,0⟩ 9).2.2 =
        [Ev.sketchTranslate 9 false] ∧
      (processSketchElem witDocC6 ⟨⟨0,1⟩, ⟨50,50,0⟩⟩ ⟨0,1⟩ 90 ⟨0,0,0⟩ 9).2.1 = 0 ∧
      (processSketchElem witDocC6 ⟨⟨0,1⟩, ⟨50,50,0⟩⟩ ⟨0,1⟩ 90 ⟨0,0,0⟩ 9).1 = witDocC6) ∧
    (sketchPass ⟨⟨0,1⟩, ⟨50,50,0⟩⟩ ⟨0,1⟩ 90 ⟨0,0,0⟩ witDocC6 (9 :: [])).2.1 =
      (processSketchElem witDocC6 ⟨⟨0,1⟩, ⟨50,50,0⟩⟩ ⟨0,1⟩ 90 ⟨0,0,0⟩ 9).2.1 +
        (sketchPass ⟨⟨0,1⟩, ⟨50,50,0⟩⟩ ⟨0,1⟩ 90 ⟨0,0,0⟩
          (processSketchElem witDocC6 ⟨⟨0,1⟩, ⟨50,50,0⟩⟩ ⟨0,1⟩ 90 ⟨0,0,0⟩ 9).1 []).2.1) :=
  ⟨by decide, by norm_num [originLengthAboveGate, XYZ.lenSq], by decide,
   c6_sketch_constraint_policy_amended witDocC6 ⟨⟨0,1⟩, ⟨50,50,0⟩⟩ ⟨0,1⟩ 90 ⟨0,0,0⟩ 9
     witElemC6 [] (by decide) (by norm_num [originLengthAboveGate, XYZ.lenSq])
     (by decide)⟩

theorem robustStep2_trace (d1 : Doc) (ids : List Nat) (o : XYZ) (pc : Nat) :
    (robustStep2 d1 ids o pc).2.2 = if o = XYZ.zero then [] else [Ev.bulkTranslate] := by
  simp only [robustStep2]
  split
  · rfl
  · split
    · rfl
    · rfl

theorem transform_elements_robust_trace (d : Doc) (ids : List Nat) (T : RTransform)
    (R : Rot2) (a : ℚ) (ro : Option XYZ) (oracle : List (Bool × Bool)) :
    (transform_elements_robust d ids T R a ro oracle).trace =
      Ev.captureJoins :: (robustStep1 d T R a ro (partitionSketchRegular d ids).1
          (partitionSketchRegular d ids).2).2.2 ++
        (robustStep2 (robustStep1 d T R a ro (partitionSketchRegular d ids).1
            (partitionSketchRegular d ids).2).1 ids T.origin
          (robustStep1 d T R a ro (partitionSketchRegular d ids).1
            (partitionSketchRegular d ids).2).2.1).2.2 ++
          [Ev.cleanConstraints, Ev.restoreJoins] := rfl

theorem processSketchElem_trace_events (d : Doc) (T : RTransform) (R : Rot2) (a : ℚ)
    (ro : XYZ) (i : Nat) :
    ∀ ev ∈ (processSketchElem d T R a ro i).2.2,
      (∃ k ok, ev = Ev.sketchTranslate k ok) ∨
        ∃ k pvt ok, ev = Ev.sketchRotate k pvt ok := by
  intro ev hev
  revert hev
  simp only [processSketchElem]
  repeat' split
  all_goals intro hev
  all_goals simp only [List.mem_cons, List.not_mem_nil, or_false] at hev
  all_goals first
    | exact hev.elim
    | exact Or.inl ⟨_, _, hev⟩
    | (rcases hev with rfl | rfl
       exacts [Or.inl ⟨_, _, rfl⟩, Or.inr ⟨_, _, _, rfl⟩])

theorem sketchPass_trace_events (T : RTransform) (R : Rot2) (a : ℚ) (ro : XYZ) :
    ∀ (ids : List Nat) (d : Doc) (ev : Ev), ev ∈ (sketchPass T R a ro d ids).2.2 →
      (∃ k ok, ev = Ev.sketchTranslate k ok) ∨
        ∃ k pvt ok, ev = Ev.sketchRotate k pvt ok := by
  intro ids
  induction ids with
  | nil => intro d ev h; cases h
  | cons i rest ih =>
    intro d ev h
    simp only [sketchPass] at h
    rcases List.mem_append.mp h with h1 | h2
    · exact processSketchElem_trace_events _ _ _ _ _ _ ev h1
    · exact ih _ ev h2

theorem robustStep1_trace_split (d : Doc) (T : RTransform) (R : Rot2) (a : ℚ)
    (ro : Option XYZ) (sks regs : List Nat) :
    ∃ rotEvs skEvs, (robustStep1 d T R a ro sks regs).2.2 = rotEvs ++ skEvs ∧
      (∀ ev ∈ rotEvs, ev = Ev.rotateNonHostedBatch ∨ ev = Ev.rotateHostedBatch) ∧
      (∀ ev ∈ skEvs, (∃ k ok, ev = Ev.sketchTranslate k ok) ∨
        ∃ k pvt ok, ev = Ev.sketchRotate k pvt ok) := by
  simp only [robustStep1]
  split
  · split
    · refine ⟨[Ev.rotateNonHostedBatch, Ev.rotateHostedBatch], _, rfl, ?_, ?_⟩
      · intro ev hev
        simp only [List.mem_cons, List.not_mem_nil, or_false] at hev
        rcases hev with rfl | rfl
        · exact Or.inl rfl
        · exact Or.inr rfl
      · intro ev hev
        exact sketchPass_trace_events T R a _ sks _ ev hev
    · exact ⟨[], [], rfl, fun ev hev => absurd hev (List.not_mem_nil ev),
        fun ev hev => absurd hev (List.not_mem_nil ev)⟩
  · exact ⟨[], [], rfl, fun ev hev => absurd hev (List.not_mem_nil ev),
      fun ev hev => absurd hev (List.not_mem_nil ev)⟩

/-- C8 as amended: the phases of transform_elements_robust occur in the
order: join capture, rotation of regular elements (non-hosted then
hosted), sketch-based element transforms, bulk translation of the
re-validated FULL id list, constraint clean-up, join restoration. In
particular the sketch-based transforms precede the bulk translation, which
precedes dependency restoration — the spec's placement of the regular
translation before the sketch transforms does not hold. -/
theorem c8_phase_order_amended (d : Doc) (ids : List Nat) (T : RTransform) (R : Rot2)
    (a : ℚ) (ro : Option XYZ) (oracle : List (Bool × Bool)) :
    ∃ rotEvs skEvs blkEvs,
      (transform_elements_robust d ids T R a ro oracle).trace =
        Ev.captureJoins :: (rotEvs ++ (skEvs ++ (blkEvs ++
          [Ev.cleanConstraints, Ev.restoreJoins]))) ∧
      (∀ ev ∈ rotEvs, ev = Ev.rotateNonHostedBatch ∨ ev = Ev.rotateHostedBatch) ∧
      (∀ ev ∈ skEvs, (∃ k ok, ev = Ev.sketchTranslate k ok) ∨
        ∃ k pvt ok, ev = Ev.sketchRotate k pvt ok) ∧
      (∀ ev ∈ blkEvs, ev = Ev.bulkTranslate) := by
  obtain ⟨rotEvs, skEvs, hsplit, hrot, hsk⟩ :=
    robustStep1_trace_split d T R a ro (partitionSketchRegular d ids).1
      (partitionSketchRegular d ids).2
  refine ⟨rotEvs, skEvs,
    (robustStep2 (robustStep1 d T R a ro (partitionSketchRegular d ids).1
        (partitionSketchRegular d ids).2).1 ids T.origin
      (robustStep1 d T R a ro (partitionSketchRegular d ids).1
        (partitionSketchRegular d ids).2).2.1).2.2, ?_, hrot, hsk, ?_⟩
  · rw [transform_elements_robust_trace, hsplit]
    simp only [List.append_assoc, List.cons_append]
  · intro ev hev
    rw [robustStep2_trace] at hev
    split at hev
    · cases hev
    · simp only [List.mem_cons, List.not_mem_nil, or_false] at hev
      exact hev

theorem cxCombinedC8 :
    combined_transform 90 ⟨0,1⟩ XYZ.zero ⟨50,50,0⟩ =
      (⟨⟨0,1⟩, ⟨50,50,0⟩⟩ : RTransform) := by
  norm_num [combined_transform, RTransform.multiply, Transform.createTranslation,
    Transform.createRotationAtPoint, Rot2.mul, Rot2.apply, Rot2.idRot, XYZ.zero,
    RTransform.mk.injEq, Rot2.mk.injEq, XYZ.mk.injEq]

/-- Counterexample to C8 as stated: in a run with a nonzero rotation angle,
a nonzero translation and one sketch-based element, the sketch transform
events (positions 3 and 4 of the trace) occur strictly BEFORE the bulk
translation of the valid elements (position 5), so the claimed order
"translation of valid regular elements, then sketch-bound transforms" is
violated; restoration still comes last. -/
theorem c8_phase_order_counterexample :
    (transform_elements_robust cxDocC8 [8]
        (combined_transform 90 ⟨0,1⟩ XYZ.zero ⟨50,50,0⟩) ⟨0,1⟩ 90 (some XYZ.zero)
        []).trace =
      [Ev.captureJoins, Ev.rotateNonHostedBatch, Ev.rotateHostedBatch,
       Ev.sketchTranslate 8 true, Ev.sketchRotate 8 ⟨51,51,0⟩ true, Ev.bulkTranslate,
       Ev.cleanConstraints, Ev.restoreJoins] ∧
    ((transform_elements_robust cxDocC8 [8]
        (combined_transform 90 ⟨0,1⟩ XYZ.zero ⟨50,50,0⟩) ⟨0,1⟩ 90 (some XYZ.zero)
        []).trace).get? 3 = some (Ev.sketchTranslate 8 true) ∧
    ((transform_elements_robust cxDocC8 [8]
        (combined_transform 90 ⟨0,1⟩ XYZ.zero ⟨50,50,0⟩) ⟨0,1⟩ 90 (some XYZ.zero)
        []).trace).get? 5 = some Ev.bulkTranslate ∧
    (3 : Nat) < 5 := by
  have hpart : partitionSketchRegular cxDocC8 [8] = ([8], []) := by decide
  have htr : (transform_elements_robust cxDocC8 [8]
      (combined_transform 90 ⟨0,1⟩ XYZ.zero ⟨50,50,0⟩) ⟨0,1⟩ 90 (some XYZ.zero)
      []).trace =
      [Ev.captureJoins, Ev.rotateNonHostedBatch, Ev.rotateHostedBatch,
       Ev.sketchTranslate 8 true, Ev.sketchRotate 8 ⟨51,51,0⟩ true, Ev.bulkTranslate,
       Ev.cleanConstraints, Ev.restoreJoins] := by
    rw [transform_elements_robust_trace, cxCombinedC8, hpart, robustStep2_trace]
    norm_num [robustStep1, hpart, separate_hosted_elements, rotate_elements, sketchPass,
      processSketchElem, cxDocC8, cxElemC8, Doc.getElement, findElem, Doc.mapElemPos,
      Elem.mapPos, originLengthAboveGate, XYZ.lenSq, XYZ.zero, XYZ.mk.injEq]
  refine ⟨htr, ?_, ?_, by decide⟩
  · rw [htr]
    rfl
  · rw [htr]
    rfl

theorem restore_wall_joins_length :
    ∀ (recs : List (Nat × Nat)) (oracle : List (Bool × Bool)) (d : Doc),
      ((restore_wall_joins d recs oracle).2).length = recs.length := by
  intro recs
  induction recs with
  | nil => intro oracle d; rfl
  | cons rec rest ih =>
    intro oracle d
    simp only [restore_wall_joins, List.length_cons]
    rw [ih]

/-- C7: policy of the dependency restorer for one stored join record: a
record with a missing end is dropped; a pair that is still joined is
reported restored; an unjoined pair gets one direct JoinGeometry attempt;
if that fails, the join is retried exactly when both walls carry location
curves with some pair of endpoints within the 1.0 tolerance (squared
distance below 1), and otherwise — retry failing or endpoints too far —
the record is dropped; and every record always yields an outcome (the loop
is total, no failure is fatal). -/
theorem c7_restore_record_policy (d : Doc) (rec : Nat × Nat) (directOk retryOk : Bool) :
    ((d.getElement rec.1 = none ∨ d.getElement rec.2 = none) →
      restoreRecord d rec directOk retryOk = (d, JoinOutcome.droppedMissing)) ∧
    (∀ w1 w2, d.getElement rec.1 = some w1 → d.getElement rec.2 = some w2 →
      d.areJoined rec.1 rec.2 = true →
      restoreRecord d rec directOk retryOk = (d, JoinOutcome.alreadyJoined)) ∧
    (∀ w1 w2, d.getElement rec.1 = some w1 → d.getElement rec.2 = some w2 →
      d.areJoined rec.1 rec.2 = false → directOk = true →
      restoreRecord d rec directOk retryOk =
        ({ d with joined := rec :: d.joined }, JoinOutcome.directJoined)) ∧
    (∀ w1 w2 c1 c2, d.getElement rec.1 = some w1 → d.getElement rec.2 = some w2 →
      d.areJoined rec.1 rec.2 = false → directOk = false →
      w1.locCurve = some c1 → w2.locCurve = some c2 →
      (closeWithin 1 c1 c2 = true → retryOk = true →
        restoreRecord d rec directOk retryOk =
          ({ d with joined := rec :: d.joined }, JoinOutcome.fallbackJoined)) ∧
      (closeWithin 1 c1 c2 = true → retryOk = false →
        restoreRecord d rec directOk retryOk = (d, JoinOutcome.droppedFailed)) ∧
      (closeWithin 1 c1 c2 = false →
        restoreRecord d rec directOk retryOk = (d, JoinOutcome.droppedFailed))) ∧
    (∀ (recs : List (Nat × Nat)) (oracle : List (Bool × Bool)),
      ((restore_wall_joins d recs oracle).2).length = recs.length) := by
  refine ⟨?_, ?_, ?_, ?_, fun recs oracle => restore_wall_joins_length recs oracle d⟩
  · intro hnone
    rcases hnone with h1 | h2
    · rw [restoreRecord, h1]
    · rw [restoreRecord, h2]
      cases d.getElement rec.1 <;> rfl
  · intro w1 w2 hg1 hg2 hj
    simp [restoreRecord, hg1, hg2, hj]
  · intro w1 w2 hg1 hg2 hj hd
    simp [restoreRecord, hg1, hg2, hj, hd]
  · intro w1 w2 c1 c2 hg1 hg2 hj hd hc1 hc2
    refine ⟨?_, ?_, ?_⟩
    · intro hclose hr
      simp [restoreRecord, hg1, hg2, hj, hd, hc1, hc2, hclose, hr]
    · intro hclose hr
      simp [restoreRecord, hg1, hg2, hj, hd, hc1, hc2, hclose, hr]
    · intro hclose
      simp [restoreRecord, hg1, hg2, hj, hd, hc1, hc2, hclose]

/-- Witness for C7: walls 2 and 3 exist, are not joined, share an endpoint
(distance 0, within the 1.0 tolerance); with the direct join failing and
the retry accepted, the record resolves as fallbackJoined. -/
theorem c7_restore_record_policy_witness :
    witDocC7.getElement 2 = some witWallC7A ∧
    witDocC7.getElement 3 = some witWallC7B ∧
    witDocC7.areJoined 2 3 = false ∧
    closeWithin 1 (⟨0,0,0⟩, ⟨10,0,0⟩) (⟨10,0,0⟩, ⟨10,10,0⟩) = true ∧
    restoreRecord witDocC7 (2, 3) false true =
      ({ witDocC7 with joined := (2, 3) :: witDocC7.joined },
        JoinOutcome.fallbackJoined) := by
  have hclose : closeWithin 1 ((⟨0,0,0⟩ : XYZ), (⟨10,0,0⟩ : XYZ))
      ((⟨10,0,0⟩ : XYZ), (⟨10,10,0⟩ : XYZ)) = true := by
    norm_num [closeWithin, XYZ.distSq, XYZ.lenSq]
  refine ⟨by decide, by decide, by decide, hclose, ?_⟩
  exact ((c7_restore_record_policy witDocC7 (2, 3) false true).2.2.2.1
    witWallC7A witWallC7B (⟨0,0,0⟩, ⟨10,0,0⟩) (⟨10,0,0⟩, ⟨10,10,0⟩) (by decide)
    (by decide) (by decide) rfl rfl rfl).1 hclose rfl
